import Mathlib

/-!
Shallow embedding of the Tryton module default_value (source file
default_value.py).  Stored text is modelled as a list of characters; Python
integers as Int; Python float and Decimal values as exact decimal numbers
(scaled integer mantissa); date, datetime and time values as records of
components.  The host ORM (trytond) is an external collaborator: its store
contract (row insertion, the declared SQL uniqueness constraint, per-model
default mapping) is modelled explicitly below.
-/

namespace DefaultValueMod

/-- Character of a decimal digit, as Python str produces it. -/
def digitToChar (d : Nat) : Char := Char.ofNat (48 + d)

/-- Numeric value of a digit character. -/
def charDigitVal (c : Char) : Nat := c.toNat - 48

/-- Is the character one of 0..9. -/
def isDigitCh (c : Char) : Bool := decide (48 ≤ c.toNat) && decide (c.toNat ≤ 57)

/-- Auxiliary digit splitter, structurally recursive on the fuel so that
concrete instances evaluate. -/
def natDigitsAux : Nat → Nat → List Char
  | 0, _ => []
  | _ + 1, 0 => []
  | fuel + 1, n + 1 =>
      natDigitsAux fuel ((n + 1) / 10) ++ [digitToChar ((n + 1) % 10)]

/-- Big-endian digit characters of a natural number (empty for zero). -/
def natDigitsBE (n : Nat) : List Char := natDigitsAux n n

/-- Python str(n) for a natural number. -/
def natStr (n : Nat) : List Char := if n = 0 then ['0'] else natDigitsBE n

/-- Python str(i) for an integer. -/
def intStr (i : Int) : List Char := if i < 0 then '-' :: natStr i.natAbs else natStr i.natAbs

/-- Numeric value of a big-endian digit string. -/
def parseDigitsBE (cs : List Char) : Nat := Nat.ofDigits 10 (cs.reverse.map charDigitVal)

/-- Python int(s) on nonnegative decimal text. -/
def pyParseNat (cs : List Char) : Except Unit Nat :=
  if cs ≠ [] ∧ cs.all isDigitCh then .ok (parseDigitsBE cs) else .error ()

/-- Python int(s) on decimal text, allowing one leading minus sign. -/
def pyParseInt (cs : List Char) : Except Unit Int :=
  if cs.head? = some '-' then
    match pyParseNat cs.tail with
    | .ok n => .ok (-(n : Int))
    | .error e => .error e
  else
    match pyParseNat cs with
    | .ok n => .ok ((n : Int))
    | .error e => .error e

theorem natDigitsAux_eq (fuel n : Nat) (h : n ≤ fuel) :
    natDigitsAux fuel n = ((Nat.digits 10 n).map digitToChar).reverse := by
  induction fuel generalizing n with
  | zero =>
      have hn : n = 0 := by omega
      subst hn
      rw [Nat.digits_zero]
      rfl
  | succ f ih =>
      cases n with
      | zero =>
          rw [Nat.digits_zero]
          rfl
      | succ m =>
          rw [natDigitsAux]
          rw [Nat.digits_def' (by norm_num : (1:Nat) < 10) (Nat.succ_pos m)]
          rw [List.map_cons, List.reverse_cons]
          rw [ih ((m + 1) / 10) (by omega)]

theorem natDigitsBE_eq (n : Nat) :
    natDigitsBE n = ((Nat.digits 10 n).map digitToChar).reverse :=
  natDigitsAux_eq n n le_rfl

theorem charDigitVal_digitToChar (d : Nat) (hd : d < 10) :
    charDigitVal (digitToChar d) = d := by
  interval_cases d <;> decide

theorem isDigitCh_digitToChar (d : Nat) (hd : d < 10) :
    isDigitCh (digitToChar d) = true := by
  interval_cases d <;> decide

theorem digitToChar_ne_zeroCh (d : Nat) (hd : d < 10) (hz : d ≠ 0) :
    digitToChar d ≠ '0' := by
  interval_cases d <;> simp_all <;> decide

theorem map_charDigitVal_map_digitToChar (l : List Nat) (h : ∀ x ∈ l, x < 10) :
    (l.map digitToChar).map charDigitVal = l := by
  induction l with
  | nil => rfl
  | cons a t ih =>
      simp only [List.map_cons, List.cons.injEq]
      exact ⟨charDigitVal_digitToChar a (h a (by simp)),
        ih (fun x hx => h x (by simp [hx]))⟩

theorem parseDigitsBE_natDigitsBE (n : Nat) : parseDigitsBE (natDigitsBE n) = n := by
  unfold parseDigitsBE
  rw [natDigitsBE_eq, List.reverse_reverse,
    map_charDigitVal_map_digitToChar _ (fun x hx => Nat.digits_lt_base (by norm_num) hx),
    Nat.ofDigits_digits]

theorem natDigitsBE_all_digits (n : Nat) : (natDigitsBE n).all isDigitCh = true := by
  rw [natDigitsBE_eq]
  rw [List.all_eq_true]
  intro c hc
  rw [List.mem_reverse, List.mem_map] at hc
  obtain ⟨d, hd, rfl⟩ := hc
  exact isDigitCh_digitToChar d (Nat.digits_lt_base (by norm_num) hd)

theorem natStr_all_digits (n : Nat) : (natStr n).all isDigitCh = true := by
  unfold natStr
  split
  · decide
  · exact natDigitsBE_all_digits n

theorem natStr_ne_nil (n : Nat) : natStr n ≠ [] := by
  unfold natStr
  split
  · simp
  · rw [natDigitsBE_eq]
    simp only [ne_eq, List.reverse_eq_nil_iff, List.map_eq_nil_iff]
    exact Nat.digits_ne_nil_iff_ne_zero.mpr (by assumption)

theorem parseDigitsBE_natStr (n : Nat) : parseDigitsBE (natStr n) = n := by
  unfold natStr
  split
  · simp only [parseDigitsBE]
    subst_eqs
    decide
  · exact parseDigitsBE_natDigitsBE n

theorem head_digit_ne_minus (cs : List Char) (h : cs.all isDigitCh = true) :
    cs.head? ≠ some '-' := by
  cases cs with
  | nil => simp
  | cons c t =>
      simp only [List.all_cons, Bool.and_eq_true] at h
      simp only [List.head?_cons, ne_eq, Option.some.injEq]
      intro hc
      subst hc
      exact absurd h.1 (by decide)

theorem pyParseNat_natStr (n : Nat) : pyParseNat (natStr n) = .ok n := by
  unfold pyParseNat
  rw [if_pos ⟨natStr_ne_nil n, natStr_all_digits n⟩, parseDigitsBE_natStr]

theorem pyParseNat_of_digits (cs : List Char) (h1 : cs ≠ []) (h2 : cs.all isDigitCh = true) :
    pyParseNat cs = .ok (parseDigitsBE cs) := by
  unfold pyParseNat
  rw [if_pos ⟨h1, h2⟩]

theorem pyParseInt_of_digits (cs : List Char) (h1 : cs ≠ []) (h2 : cs.all isDigitCh = true) :
    pyParseInt cs = .ok (parseDigitsBE cs) := by
  unfold pyParseInt
  rw [if_neg (head_digit_ne_minus cs h2), pyParseNat_of_digits cs h1 h2]

theorem pyParseInt_intStr (i : Int) : pyParseInt (intStr i) = .ok i := by
  unfold intStr
  split
  · rename_i hneg
    unfold pyParseInt
    simp only [List.head?_cons, List.tail_cons, if_pos, pyParseNat_natStr]
    congr 1
    omega
  · rename_i hpos
    rw [pyParseInt_of_digits _ (natStr_ne_nil _) (natStr_all_digits _), parseDigitsBE_natStr]
    congr 1
    omega

/-- Left zero padding to a minimum width, as the Python format codes
%02d and %04d used by str on date and time objects produce it. -/
def padZeros (k : Nat) (cs : List Char) : List Char :=
  List.replicate (k - cs.length) '0' ++ cs

theorem ofDigits_replicate_zero (b k : Nat) :
    Nat.ofDigits b (List.replicate k 0) = 0 := by
  induction k with
  | zero => rfl
  | succ n ih => simp [List.replicate_succ, Nat.ofDigits, ih]

theorem ofDigits_append_zeros (l : List Nat) (k : Nat) :
    Nat.ofDigits 10 (l ++ List.replicate k 0) = Nat.ofDigits 10 l := by
  rw [Nat.ofDigits_append, ofDigits_replicate_zero]
  simp

theorem parseDigitsBE_padZeros (k n : Nat) :
    parseDigitsBE (padZeros k (natStr n)) = n := by
  unfold parseDigitsBE padZeros
  rw [List.reverse_append, List.map_append]
  have hz : ((List.replicate (k - (natStr n).length) '0').reverse.map charDigitVal)
      = List.replicate (k - (natStr n).length) 0 := by
    rw [List.reverse_replicate, List.map_replicate]
    rfl
  rw [hz, ofDigits_append_zeros]
  exact parseDigitsBE_natStr n

theorem padZeros_all_digits (k n : Nat) :
    (padZeros k (natStr n)).all isDigitCh = true := by
  unfold padZeros
  rw [List.all_append]
  rw [Bool.and_eq_true]
  refine ⟨?_, natStr_all_digits n⟩
  rw [List.all_eq_true]
  intro c hc
  rw [List.eq_of_mem_replicate hc]
  decide

theorem padZeros_ne_nil (k n : Nat) : padZeros k (natStr n) ≠ [] := by
  unfold padZeros
  simp [natStr_ne_nil n]

theorem pyParseNat_padZeros (k n : Nat) :
    pyParseNat (padZeros k (natStr n)) = .ok n := by
  rw [pyParseNat_of_digits _ (padZeros_ne_nil k n) (padZeros_all_digits k n),
    parseDigitsBE_padZeros]

theorem pyParseInt_padZeros (k n : Nat) :
    pyParseInt (padZeros k (natStr n)) = .ok (n : Int) := by
  rw [pyParseInt_of_digits _ (padZeros_ne_nil k n) (padZeros_all_digits k n),
    parseDigitsBE_padZeros]

theorem natStr_length_le (k n : Nat) (hk : 1 ≤ k) (hn : n < 10 ^ k) :
    (natStr n).length ≤ k := by
  unfold natStr
  split
  · simpa using hk
  · rename_i hn0
    rw [natDigitsBE_eq]
    rw [List.length_reverse, List.length_map]
    rw [Nat.digits_len 10 n (by norm_num) hn0]
    have hlog := (@Nat.lt_pow_iff_log_lt 10 (by norm_num) k n hn0).mp hn
    omega

theorem padZeros_length (k : Nat) (cs : List Char) (h : cs.length ≤ k) :
    (padZeros k cs).length = k := by
  unfold padZeros
  rw [List.length_append, List.length_replicate]
  omega

theorem padZeros_natStr_length (k n : Nat) (hk : 1 ≤ k) (hn : n < 10 ^ k) :
    (padZeros k (natStr n)).length = k :=
  padZeros_length k _ (natStr_length_le k n hk hn)

structure PyDate where
  year : Nat
  month : Nat
  day : Nat
deriving DecidableEq, Repr

structure PyTime where
  hour : Nat
  minute : Nat
  second : Nat
deriving DecidableEq, Repr

structure PyDatetime where
  date : PyDate
  time : PyTime
deriving DecidableEq, Repr

def isLeapYear (y : Nat) : Bool := decide (y % 4 = 0) && (decide (y % 100 ≠ 0) || decide (y % 400 = 0))

def daysInMonth (y m : Nat) : Nat :=
  if m = 2 then (if isLeapYear y then 29 else 28)
  else if m = 4 ∨ m = 6 ∨ m = 9 ∨ m = 11 then 30 else 31

/-- Range validity enforced by the Python date constructor. -/
def validPyDate (d : PyDate) : Bool :=
  decide (1 ≤ d.year) && decide (d.year ≤ 9999) && decide (1 ≤ d.month) &&
    decide (d.month ≤ 12) && decide (1 ≤ d.day) && decide (d.day ≤ daysInMonth d.year d.month)

/-- Range validity enforced by the Python time constructor. -/
def validPyTime (t : PyTime) : Bool :=
  decide (t.hour ≤ 23) && decide (t.minute ≤ 59) && decide (t.second ≤ 59)

/-- Python 2 truthiness of a time object: exactly midnight is falsy. -/
def pyTruthyTime (t : PyTime) : Bool :=
  !(decide (t.hour = 0) && decide (t.minute = 0) && decide (t.second = 0))

theorem pyTruthyTime_of_ne (t : PyTime) (h : t ≠ ⟨0, 0, 0⟩) :
    pyTruthyTime t = true := by
  obtain ⟨a, b, c⟩ := t
  rw [ne_eq, PyTime.mk.injEq] at h
  unfold pyTruthyTime
  simp only [Bool.not_eq_true', Bool.and_eq_false_iff, decide_eq_false_iff_not,
    decide_eq_true_eq]
  tauto

/-- The Python date constructor: validates components, raising on bad input. -/
def mkDate (y m d : Int) : Except Unit PyDate :=
  if 0 ≤ y ∧ 0 ≤ m ∧ 0 ≤ d ∧ validPyDate ⟨y.toNat, m.toNat, d.toNat⟩ = true then
    .ok ⟨y.toNat, m.toNat, d.toNat⟩
  else .error ()

/-- The Python time constructor: validates components, raising on bad input. -/
def mkTime (h m s : Int) : Except Unit PyTime :=
  if 0 ≤ h ∧ 0 ≤ m ∧ 0 ≤ s ∧ validPyTime ⟨h.toNat, m.toNat, s.toNat⟩ = true then
    .ok ⟨h.toNat, m.toNat, s.toNat⟩
  else .error ()

/-- Python str of a date: YYYY-MM-DD with zero padding. -/
def serializeDate (d : PyDate) : List Char :=
  padZeros 4 (natStr d.year) ++ '-' ::
    (padZeros 2 (natStr d.month) ++ '-' :: padZeros 2 (natStr d.day))

/-- Python str of a time of second precision: HH:MM:SS. -/
def serializeTime (t : PyTime) : List Char :=
  padZeros 2 (natStr t.hour) ++ ':' ::
    (padZeros 2 (natStr t.minute) ++ ':' :: padZeros 2 (natStr t.second))

/-- Python str of a datetime of second precision: YYYY-MM-DD HH:MM:SS. -/
def serializeDatetime (dt : PyDatetime) : List Char :=
  serializeDate dt.date ++ ' ' :: serializeTime dt.time

/-- The date branch of get_value:
date(int(value[0:4]), int(value[5:7]), int(value[8:])). -/
def sliceParseDate (cs : List Char) : Except Unit PyDate := do
  let y ← pyParseInt (cs.take 4)
  let m ← pyParseInt ((cs.drop 5).take 2)
  let d ← pyParseInt (cs.drop 8)
  mkDate y m d

/-- The time branch of get_value:
time(int(value[0:2]), int(value[3:5]), int(value[6:])). -/
def sliceParseTime (cs : List Char) : Except Unit PyTime := do
  let h ← pyParseInt (cs.take 2)
  let m ← pyParseInt ((cs.drop 3).take 2)
  let s ← pyParseInt (cs.drop 6)
  mkTime h m s

/-- Split the text at the first occurrence of a separator character,
failing when the separator does not occur. -/
def splitSep (sep : Char) (cs : List Char) : Except Unit (List Char × List Char) :=
  match cs.dropWhile (fun c => decide (c ≠ sep)) with
  | [] => .error ()
  | _ :: rest => .ok (cs.takeWhile (fun c => decide (c ≠ sep)), rest)

/-- Model of datetime.strptime with the fixed format string
%Y-%m-%d %H:%M:%S: split at the separators, parse the six integer
components, and validate them through the date and time constructors. -/
def parsePyDatetime (cs : List Char) : Except Unit PyDatetime := do
  let (ys, r1) ← splitSep '-' cs
  let (ms, r2) ← splitSep '-' r1
  let (ds, r3) ← splitSep ' ' r2
  let (hs, r4) ← splitSep ':' r3
  let (mins, ss) ← splitSep ':' r4
  let y ← pyParseNat ys
  let mo ← pyParseNat ms
  let dd ← pyParseNat ds
  let hh ← pyParseNat hs
  let mi ← pyParseNat mins
  let s ← pyParseNat ss
  let d ← mkDate y mo dd
  let t ← mkTime hh mi s
  pure ⟨d, t⟩

theorem take_app (A X : List Char) (sep : Char) (n : Nat) (hA : A.length = n) :
    (A ++ sep :: X).take n = A :=
  List.take_left' hA

theorem drop_app1 (A X : List Char) (sep : Char) (n : Nat) (hA : A.length = n) :
    (A ++ sep :: X).drop (n + 1) = X := by
  have h : A ++ sep :: X = (A ++ [sep]) ++ X := by simp
  rw [h, List.drop_left' (by simp [hA])]

theorem drop_app2 (A B C : List Char) (s1 s2 : Char) (a b n : Nat)
    (hA : A.length = a) (hB : B.length = b) (hn : a + b + 2 = n) :
    (A ++ s1 :: (B ++ s2 :: C)).drop n = C := by
  have h : A ++ s1 :: (B ++ s2 :: C) = ((A ++ [s1]) ++ (B ++ [s2])) ++ C := by simp
  rw [h, List.drop_left' (by simp [hA, hB]; omega)]

theorem mkDate_valid (d : PyDate) (h : validPyDate d = true) :
    mkDate d.year d.month d.day = .ok d := by
  unfold mkDate
  rw [if_pos]
  · simp
  · refine ⟨by positivity, by positivity, by positivity, ?_⟩
    simpa using h

theorem mkTime_valid (t : PyTime) (h : validPyTime t = true) :
    mkTime t.hour t.minute t.second = .ok t := by
  unfold mkTime
  rw [if_pos]
  · simp
  · refine ⟨by positivity, by positivity, by positivity, ?_⟩
    simpa using h

theorem validPyDate_year_lt (d : PyDate) (h : validPyDate d = true) :
    d.year < 10 ^ 4 := by
  unfold validPyDate at h
  simp only [Bool.and_eq_true, decide_eq_true_eq] at h
  omega

theorem validPyDate_month_lt (d : PyDate) (h : validPyDate d = true) :
    d.month < 10 ^ 2 := by
  unfold validPyDate at h
  simp only [Bool.and_eq_true, decide_eq_true_eq] at h
  omega

theorem validPyDate_day_lt (d : PyDate) (h : validPyDate d = true) :
    d.day < 10 ^ 2 := by
  have hd : d.day ≤ daysInMonth d.year d.month := by
    unfold validPyDate at h
    simp only [Bool.and_eq_true, decide_eq_true_eq] at h
    exact h.2
  have : daysInMonth d.year d.month ≤ 31 := by
    unfold daysInMonth
    split
    · split <;> omega
    · split <;> omega
  omega

theorem sliceParseDate_serializeDate (d : PyDate) (h : validPyDate d = true) :
    sliceParseDate (serializeDate d) = .ok d := by
  have hy : (padZeros 4 (natStr d.year)).length = 4 :=
    padZeros_natStr_length 4 d.year (by norm_num) (validPyDate_year_lt d h)
  have hm : (padZeros 2 (natStr d.month)).length = 2 :=
    padZeros_natStr_length 2 d.month (by norm_num) (validPyDate_month_lt d h)
  unfold sliceParseDate serializeDate
  rw [take_app _ _ _ _ hy]
  rw [drop_app2 _ _ _ _ _ 4 2 8 hy hm (by norm_num)]
  rw [show (5 : Nat) = 4 + 1 from rfl, drop_app1 _ _ _ _ hy]
  rw [take_app _ _ _ _ hm]
  rw [pyParseInt_padZeros, pyParseInt_padZeros, pyParseInt_padZeros]
  simpa using mkDate_valid d h

theorem validPyTime_lt (t : PyTime) (h : validPyTime t = true) :
    t.hour < 10 ^ 2 ∧ t.minute < 10 ^ 2 ∧ t.second < 10 ^ 2 := by
  unfold validPyTime at h
  simp only [Bool.and_eq_true, decide_eq_true_eq] at h
  omega

theorem sliceParseTime_serializeTime (t : PyTime) (h : validPyTime t = true) :
    sliceParseTime (serializeTime t) = .ok t := by
  have hh : (padZeros 2 (natStr t.hour)).length = 2 :=
    padZeros_natStr_length 2 t.hour (by norm_num) (validPyTime_lt t h).1
  have hm : (padZeros 2 (natStr t.minute)).length = 2 :=
    padZeros_natStr_length 2 t.minute (by norm_num) (validPyTime_lt t h).2.1
  unfold sliceParseTime serializeTime
  rw [take_app _ _ _ _ hh]
  rw [drop_app2 _ _ _ _ _ 2 2 6 hh hm (by norm_num)]
  rw [show (3 : Nat) = 2 + 1 from rfl, drop_app1 _ _ _ _ hh]
  rw [take_app _ _ _ _ hm]
  rw [pyParseInt_padZeros, pyParseInt_padZeros, pyParseInt_padZeros]
  simpa using mkTime_valid t h

theorem takeWhile_sep (p : Char → Bool) (l1 l2 : List Char) (c : Char)
    (h1 : l1.all p = true) (hc : p c = false) :
    ((l1 ++ c :: l2).takeWhile p) = l1 := by
  induction l1 with
  | nil => simp [List.takeWhile_cons, hc]
  | cons a t ih =>
      simp only [List.all_cons, Bool.and_eq_true] at h1
      simp [List.takeWhile_cons, h1.1, ih h1.2]

theorem dropWhile_sep (p : Char → Bool) (l1 l2 : List Char) (c : Char)
    (h1 : l1.all p = true) (hc : p c = false) :
    ((l1 ++ c :: l2).dropWhile p) = c :: l2 := by
  induction l1 with
  | nil => simp [List.dropWhile_cons, hc]
  | cons a t ih =>
      simp only [List.all_cons, Bool.and_eq_true] at h1
      simp [List.dropWhile_cons, h1.1, ih h1.2]

theorem splitSep_sep (sep : Char) (l1 l2 : List Char)
    (h1 : l1.all (fun c => decide (c ≠ sep)) = true) :
    splitSep sep (l1 ++ sep :: l2) = .ok (l1, l2) := by
  unfold splitSep
  rw [dropWhile_sep _ _ _ _ h1 (by simp), takeWhile_sep _ _ _ _ h1 (by simp)]

theorem all_digits_ne_sep (cs : List Char) (h : cs.all isDigitCh = true) (sep : Char)
    (hsep : isDigitCh sep = false) :
    cs.all (fun c => decide (c ≠ sep)) = true := by
  rw [List.all_eq_true] at h ⊢
  intro c hc
  have hcd := h c hc
  simp only [decide_eq_true_eq]
  intro he
  rw [he, hsep] at hcd
  exact absurd hcd (by simp)

theorem padZeros_natStr_ne_sep (k n : Nat) (sep : Char) (hsep : isDigitCh sep = false) :
    (padZeros k (natStr n)).all (fun c => decide (c ≠ sep)) = true :=
  all_digits_ne_sep _ (padZeros_all_digits k n) sep hsep

theorem parsePyDatetime_serializeDatetime (dt : PyDatetime)
    (hd : validPyDate dt.date = true) (ht : validPyTime dt.time = true) :
    parsePyDatetime (serializeDatetime dt) = .ok dt := by
  unfold parsePyDatetime serializeDatetime serializeDate serializeTime
  simp only [List.append_assoc, List.cons_append]
  rw [splitSep_sep '-' _ _ (padZeros_natStr_ne_sep 4 dt.date.year '-' (by decide))]
  simp only [bind, Except.bind]
  rw [splitSep_sep '-' _ _ (padZeros_natStr_ne_sep 2 dt.date.month '-' (by decide))]
  simp only [bind, Except.bind]
  rw [splitSep_sep ' ' _ _ (padZeros_natStr_ne_sep 2 dt.date.day ' ' (by decide))]
  simp only [bind, Except.bind]
  rw [splitSep_sep ':' _ _ (padZeros_natStr_ne_sep 2 dt.time.hour ':' (by decide))]
  simp only [bind, Except.bind]
  rw [splitSep_sep ':' _ _ (padZeros_natStr_ne_sep 2 dt.time.minute ':' (by decide))]
  simp only [bind, Except.bind]
  rw [pyParseNat_padZeros, pyParseNat_padZeros, pyParseNat_padZeros,
    pyParseNat_padZeros, pyParseNat_padZeros, pyParseNat_padZeros]
  simp only [bind, Except.bind]
  rw [mkDate_valid dt.date hd]
  simp only [bind, Except.bind]
  rw [mkTime_valid dt.time ht]
  rfl

/-- An exact decimal number: mantissa times ten to the minus scale.
Python Decimal values of nonpositive exponent are exactly these; float
values are identified with the exact decimal their str shows. -/
structure PyDec where
  man : Int
  scale : Nat
deriving DecidableEq, Repr

/-- Python str of an exact decimal: the digits of the mantissa with a
decimal point inserted scale places from the right (no point when the
scale is zero). -/
def serializeDec (d : PyDec) : List Char :=
  if d.scale = 0 then intStr d.man
  else
    (if d.man < 0 then ['-'] else []) ++
      ((padZeros (d.scale + 1) (natStr d.man.natAbs)).take
          ((padZeros (d.scale + 1) (natStr d.man.natAbs)).length - d.scale) ++
        '.' :: (padZeros (d.scale + 1) (natStr d.man.natAbs)).drop
          ((padZeros (d.scale + 1) (natStr d.man.natAbs)).length - d.scale))

/-- Parse of nonnegative plain decimal text (digits with at most one
point), as both Python float() and Decimal() behave on such text. -/
def pyParseDecNonneg (cs : List Char) : Except Unit PyDec :=
  match cs.dropWhile (fun c => decide (c ≠ '.')) with
  | [] => if cs ≠ [] ∧ cs.all isDigitCh then .ok ⟨parseDigitsBE cs, 0⟩ else .error ()
  | _ :: fp =>
      if (cs.takeWhile (fun c => decide (c ≠ '.')) ≠ [] ∨ fp ≠ []) ∧
          (cs.takeWhile (fun c => decide (c ≠ '.'))).all isDigitCh ∧ fp.all isDigitCh then
        .ok ⟨parseDigitsBE (cs.takeWhile (fun c => decide (c ≠ '.')) ++ fp), fp.length⟩
      else .error ()

/-- Parse of plain decimal text with an optional leading minus sign. -/
def pyParseDec (cs : List Char) : Except Unit PyDec :=
  if cs.head? = some '-' then
    match pyParseDecNonneg cs.tail with
    | .ok d => .ok ⟨-d.man, d.scale⟩
    | .error e => .error e
  else pyParseDecNonneg cs

theorem all_take (l : List Char) (p : Char → Bool) (n : Nat) (h : l.all p = true) :
    (l.take n).all p = true := by
  rw [List.all_eq_true] at h ⊢
  exact fun c hc => h c (List.take_subset n l hc)

theorem all_drop (l : List Char) (p : Char → Bool) (n : Nat) (h : l.all p = true) :
    (l.drop n).all p = true := by
  rw [List.all_eq_true] at h ⊢
  exact fun c hc => h c (List.drop_subset n l hc)

theorem dropWhile_of_all (l : List Char)
    (h : l.all (fun c => decide (c ≠ '.')) = true) :
    l.dropWhile (fun c => decide (c ≠ '.')) = [] := by
  rw [List.dropWhile_eq_nil_iff]
  rw [List.all_eq_true] at h
  exact h

theorem pyParseDecNonneg_digits (cs : List Char) (h1 : cs ≠ [])
    (h2 : cs.all isDigitCh = true) :
    pyParseDecNonneg cs = .ok ⟨parseDigitsBE cs, 0⟩ := by
  unfold pyParseDecNonneg
  rw [dropWhile_of_all _ (all_digits_ne_sep cs h2 '.' (by decide))]
  rw [if_pos ⟨h1, h2⟩]

theorem padZeros_length_ge (k : Nat) (cs : List Char) : k ≤ (padZeros k cs).length := by
  unfold padZeros
  rw [List.length_append, List.length_replicate]
  omega

theorem pyParseDec_serializeDec (d : PyDec) : pyParseDec (serializeDec d) = .ok d := by
  obtain ⟨m, e⟩ := d
  unfold serializeDec
  dsimp only
  by_cases he : e = 0
  · subst he
    rw [if_pos rfl]
    unfold intStr
    split
    · rename_i hneg
      unfold pyParseDec
      simp only [List.head?_cons, List.tail_cons, if_pos]
      rw [pyParseDecNonneg_digits _ (natStr_ne_nil _) (natStr_all_digits _),
        parseDigitsBE_natStr]
      dsimp only
      have hmabs : -((m.natAbs : Int)) = m := by omega
      rw [hmabs]
    · rename_i hpos
      unfold pyParseDec
      rw [if_neg (head_digit_ne_minus _ (natStr_all_digits _))]
      rw [pyParseDecNonneg_digits _ (natStr_ne_nil _) (natStr_all_digits _),
        parseDigitsBE_natStr]
      have hmabs : ((m.natAbs : Int)) = m := by omega
      rw [hmabs]
  · rw [if_neg he]
    set ds := padZeros (e + 1) (natStr m.natAbs) with hds
    have hL : e + 1 ≤ ds.length := padZeros_length_ge (e + 1) _
    set K := ds.length - e with hK
    have hK1 : 1 ≤ K := by omega
    have hdsall : ds.all isDigitCh = true := padZeros_all_digits (e + 1) m.natAbs
    have hAall : (ds.take K).all isDigitCh = true := all_take ds isDigitCh K hdsall
    have hBall : (ds.drop K).all isDigitCh = true := all_drop ds isDigitCh K hdsall
    have hAne : ds.take K ≠ [] := by
      intro hcontra
      have hlen := congrArg List.length hcontra
      rw [List.length_take] at hlen
      simp only [List.length_nil] at hlen
      omega
    have hbody : pyParseDecNonneg (ds.take K ++ '.' :: ds.drop K)
        = .ok ⟨parseDigitsBE ds, e⟩ := by
      unfold pyParseDecNonneg
      rw [dropWhile_sep _ _ _ _ (all_digits_ne_sep _ hAall '.' (by decide)) (by simp),
        takeWhile_sep _ _ _ _ (all_digits_ne_sep _ hAall '.' (by decide)) (by simp)]
      dsimp only
      rw [if_pos ⟨Or.inl hAne, hAall, hBall⟩]
      rw [List.take_append_drop]
      simp only [Except.ok.injEq, PyDec.mk.injEq, List.length_drop]
      exact ⟨trivial, by omega⟩
    by_cases hm : m < 0
    · rw [if_pos hm]
      unfold pyParseDec
      simp only [List.cons_append, List.nil_append, List.head?_cons, List.tail_cons, if_pos]
      rw [hbody, parseDigitsBE_padZeros]
      dsimp only
      have hmabs : -((m.natAbs : Int)) = m := by omega
      rw [hmabs]
    · rw [if_neg hm]
      simp only [List.nil_append]
      unfold pyParseDec
      have hhead : (ds.take K ++ '.' :: ds.drop K).head? ≠ some '-' := by
        obtain ⟨a, t, hat⟩ := List.exists_cons_of_ne_nil hAne
        rw [hat, List.cons_append, List.head?_cons]
        have haD : isDigitCh a = true := by
          have hA := hAall
          rw [hat, List.all_cons, Bool.and_eq_true] at hA
          exact hA.1
        intro hcontra
        simp only [Option.some.injEq] at hcontra
        rw [hcontra] at haD
        exact absurd haD (by decide)
      rw [if_neg hhead, hbody, parseDigitsBE_padZeros]
      have hmabs : ((m.natAbs : Int)) = m := by omega
      rw [hmabs]

theorem serializeDec_ne_nil (d : PyDec) : serializeDec d ≠ [] := by
  unfold serializeDec
  split
  · unfold intStr
    split
    · simp
    · exact natStr_ne_nil _
  · intro hcontra
    rw [List.append_eq_nil] at hcontra
    exact absurd hcontra.2 (by simp)

/-- The supported field kinds (module constant _FIELD_TYPES). -/
inductive FieldType
  | boolean
  | char
  | integer
  | text
  | float
  | numeric
  | date
  | datetime
  | time
  | many2one
  | selection
  | reference
deriving DecidableEq, Repr

/-- A typed Python value as handled by the accessors and providers. -/
inductive Value
  | bool (b : Bool)
  | int (i : Int)
  | float (d : PyDec)
  | numeric (d : PyDec)
  | str (s : List Char)
  | date (d : PyDate)
  | datetime (dt : PyDatetime)
  | time (t : PyTime)
deriving DecidableEq, Repr

/-- The characters of the Python literal True. -/
def trueLit : List Char := ['T', 'r', 'u', 'e']

/-- The characters of the Python literal False. -/
def falseLit : List Char := ['F', 'a', 'l', 's', 'e']

/-- The characters of the Python literal None. -/
def noneLit : List Char := ['N', 'o', 'n', 'e']

/-- Python str of a typed value, as used by set_value (str(value)). -/
def pyStrOfValue : Value → List Char
  | .bool b => if b then trueLit else falseLit
  | .int i => intStr i
  | .float d => serializeDec d
  | .numeric d => serializeDec d
  | .str s => s
  | .date d => serializeDate d
  | .datetime dt => serializeDatetime dt
  | .time t => serializeTime t

/-- Python truthiness of the stored text (None and the empty string are
falsy). -/
def pyTruthy : Option (List Char) → Bool
  | none => false
  | some s => !s.isEmpty

/-- The per-kind conversion of get_value (lines 252 to 273 of the source):
given the stored text, produce the typed Python value.  The Except layer
carries the conversion errors Python would raise (bad int(), float(),
Decimal(), date, datetime or time text).  The time branch uses the
Python 2 idiom (value and time(...) or None), and a time object equal to
midnight is falsy in Python 2, so a stored 00:00:00 reads back as None;
date and datetime objects are always truthy, so their branches are
unaffected by the idiom. -/
def deserializeValue (name : FieldType) (value : Option (List Char)) :
    Except Unit (Option Value) :=
  match name with
  | .boolean => .ok (some (.bool (value = some trueLit)))
  | .integer =>
      if pyTruthy value then
        match pyParseInt (value.getD []) with
        | .ok i => .ok (some (.int i))
        | .error e => .error e
      else .ok (some (.int 0))
  | .float =>
      if pyTruthy value then
        match pyParseDec (value.getD []) with
        | .ok d => .ok (some (.float d))
        | .error e => .error e
      else .ok (some (.float ⟨0, 1⟩))
  | .numeric =>
      if pyTruthy value then
        match pyParseDec (value.getD []) with
        | .ok d => .ok (some (.numeric d))
        | .error e => .error e
      else .ok (some (.numeric ⟨0, 1⟩))
  | .date =>
      if pyTruthy value then
        match sliceParseDate (value.getD []) with
        | .ok d => .ok (some (.date d))
        | .error e => .error e
      else .ok none
  | .datetime =>
      if pyTruthy value then
        match parsePyDatetime (value.getD []) with
        | .ok dt => .ok (some (.datetime dt))
        | .error e => .error e
      else .ok none
  | .time =>
      if pyTruthy value then
        match sliceParseTime (value.getD []) with
        | .ok t => .ok (if pyTruthyTime t then some (.time t) else none)
        | .error e => .error e
      else .ok none
  | _ => .ok (value.map .str)

/-- The state of one DefaultValue record as seen by the typed accessors:
its derived field_type and its stored default_value text. -/
structure DefaultValueRec where
  field_type : FieldType
  default_value : Option (List Char)
deriving DecidableEq, Repr

/-- get_value: the typed accessor of get for one record.  Returns the
Python None (here Option.none) when the requested kind does not match
field_type, otherwise converts the stored text. -/
def get_value (rec : DefaultValueRec) (name : FieldType) : Except Unit (Option Value) :=
  if rec.field_type = name then deserializeValue name rec.default_value else .ok none

/-- set_value on one record: writes str(value) into default_value when the
requested kind matches field_type and the supplied value is not None,
otherwise leaves the record unchanged. -/
def set_value_one (rec : DefaultValueRec) (name : FieldType) (value : Option Value) :
    DefaultValueRec :=
  match value with
  | some v =>
      if name = rec.field_type then
        { rec with default_value := some (pyStrOfValue v) }
      else rec
  | none => rec

/-- set_value: the classmethod loops over the records. -/
def set_value (recs : List DefaultValueRec) (name : FieldType) (value : Option Value) :
    List DefaultValueRec :=
  recs.map (fun r => set_value_one r name value)

/-- The domain of typed values for each kind.  Strings serve the five
pass-through kinds (char, text, selection, reference and many2one, the
last carrying the string form of a record identifier).  Float values are
identified with the exact decimal their str shows, which always has at
least one digit after the point and no trailing zero beyond it; Decimal
values of nonpositive exponent carry any scale.  Date, datetime and time
components respect the Python constructor ranges with second precision. -/
def inDomain : FieldType → Value → Bool
  | .boolean, .bool _ => true
  | .integer, .int _ => true
  | .float, .float d => decide (1 ≤ d.scale) && (decide (d.scale = 1) || decide (d.man % 10 ≠ 0))
  | .numeric, .numeric _ => true
  | .char, .str _ => true
  | .text, .str _ => true
  | .selection, .str _ => true
  | .reference, .str _ => true
  | .many2one, .str _ => true
  | .date, .date d => validPyDate d
  | .datetime, .datetime dt => validPyDate dt.date && validPyTime dt.time
  | .time, .time t => validPyTime t
  | _, _ => false

/-- The fixed fallback each kind maps the empty stored string to. -/
def emptyFallback : FieldType → Option Value
  | .boolean => some (.bool false)
  | .integer => some (.int 0)
  | .float => some (.float ⟨0, 1⟩)
  | .numeric => some (.numeric ⟨0, 1⟩)
  | .date => none
  | .datetime => none
  | .time => none
  | _ => some (.str [])

theorem intStr_ne_nil (i : Int) : intStr i ≠ [] := by
  unfold intStr
  split
  · simp
  · exact natStr_ne_nil _

theorem serializeDate_ne_nil (d : PyDate) : serializeDate d ≠ [] := by
  unfold serializeDate
  simp

theorem serializeTime_ne_nil (t : PyTime) : serializeTime t ≠ [] := by
  unfold serializeTime
  simp

theorem serializeDatetime_ne_nil (dt : PyDatetime) : serializeDatetime dt ≠ [] := by
  unfold serializeDatetime
  simp [serializeDate_ne_nil]

instance exceptDecEq {e a : Type} [DecidableEq e] [DecidableEq a] :
    DecidableEq (Except e a) := fun x y =>
  match x, y with
  | .ok u, .ok w =>
      if h : u = w then .isTrue (by rw [h]) else .isFalse (fun hc => h (Except.ok.inj hc))
  | .error u, .error w =>
      if h : u = w then .isTrue (by rw [h]) else .isFalse (fun hc => h (Except.error.inj hc))
  | .ok _, .error _ => .isFalse (fun hc => Except.noConfusion hc)
  | .error _, .ok _ => .isFalse (fun hc => Except.noConfusion hc)

theorem deserialize_roundtrip (kind : FieldType) (v : Value)
    (hv : inDomain kind v = true) (hnm : v ≠ .time ⟨0, 0, 0⟩) :
    deserializeValue kind (some (pyStrOfValue v)) = .ok (some v) := by
  cases kind <;> cases v <;> try exact Bool.noConfusion hv
  case boolean.bool b =>
      cases b <;> decide
  case integer.int i =>
      unfold deserializeValue pyStrOfValue pyTruthy
      have hcond : (!(intStr i).isEmpty) = true := by simp [intStr_ne_nil i]
      rw [if_pos hcond]
      simp only [Option.getD_some, pyParseInt_intStr]
  case float.float d =>
      unfold deserializeValue pyStrOfValue pyTruthy
      have hcond : (!(serializeDec d).isEmpty) = true := by simp [serializeDec_ne_nil d]
      simp only [hcond, if_true, Option.getD_some, pyParseDec_serializeDec]
  case numeric.numeric d =>
      unfold deserializeValue pyStrOfValue pyTruthy
      have hcond : (!(serializeDec d).isEmpty) = true := by simp [serializeDec_ne_nil d]
      simp only [hcond, if_true, Option.getD_some, pyParseDec_serializeDec]
  case char.str s => rfl
  case text.str s => rfl
  case selection.str s => rfl
  case reference.str s => rfl
  case many2one.str s => rfl
  case date.date d =>
      unfold deserializeValue pyStrOfValue pyTruthy
      have hcond : (!(serializeDate d).isEmpty) = true := by simp [serializeDate_ne_nil d]
      simp only [hcond, if_true, Option.getD_some, sliceParseDate_serializeDate d hv]
  case datetime.datetime dt =>
      rw [inDomain, Bool.and_eq_true] at hv
      unfold deserializeValue pyStrOfValue pyTruthy
      have hcond : (!(serializeDatetime dt).isEmpty) = true := by
        simp [serializeDatetime_ne_nil dt]
      simp only [hcond, if_true, Option.getD_some,
        parsePyDatetime_serializeDatetime dt hv.1 hv.2]
  case time.time t =>
      have htr : pyTruthyTime t = true :=
        pyTruthyTime_of_ne t (fun hc => hnm (by rw [hc]))
      unfold deserializeValue pyStrOfValue pyTruthy
      have hcond : (!(serializeTime t).isEmpty) = true := by simp [serializeTime_ne_nil t]
      simp only [hcond, if_true, Option.getD_some, sliceParseTime_serializeTime t hv]
      rw [htr, if_pos rfl]

theorem deserialize_empty (kind : FieldType) :
    deserializeValue kind (some []) = .ok (emptyFallback kind) := by
  cases kind <;> decide

/-- C1 counterexample: the midnight time value is falsy in Python 2, so
the and/or idiom of get_value returns None for the stored text 00:00:00.
Writing time(0,0,0), a value inside the time domain, through the time
setter and reading it back yields none rather than the value again, which
refutes the round trip as the claim states it. -/
theorem C1_counterexample :
    get_value (set_value_one ⟨.time, none⟩ .time (some (.time ⟨0, 0, 0⟩))) .time
      = .ok none
    ∧ ¬ get_value (set_value_one ⟨.time, none⟩ .time (some (.time ⟨0, 0, 0⟩))) .time
        = .ok (some (.time ⟨0, 0, 0⟩)) := by
  constructor
  · decide
  · decide

/-- C1 (amended): for every supported field kind and every value in that
kinds domain other than the midnight time value, writing the value through
the matching typed set accessor and then reading it back through the
matching typed get accessor yields the value again; the midnight time
value, falsy in Python 2, reads back as none; and the empty stored string
maps to the fixed per-kind fallback (0 for integer, 0.0 for float and
numeric, false for boolean, none for date, datetime and time, and the
empty string for the text-like kinds). -/
theorem C1_typed_accessor_roundtrip (kind : FieldType) (v : Value)
    (hv : inDomain kind v = true) (rec : DefaultValueRec)
    (hft : rec.field_type = kind) (hnm : v ≠ .time ⟨0, 0, 0⟩) :
    get_value (set_value_one rec kind (some v)) kind = .ok (some v)
    ∧ get_value ⟨kind, some []⟩ kind = .ok (emptyFallback kind)
    ∧ get_value (set_value_one ⟨.time, none⟩ .time (some (.time ⟨0, 0, 0⟩))) .time
        = .ok none := by
  refine ⟨?_, ?_, by decide⟩
  · unfold set_value_one
    dsimp only
    rw [if_pos hft.symm]
    unfold get_value
    dsimp only
    rw [if_pos hft]
    exact deserialize_roundtrip kind v hv hnm
  · unfold get_value
    dsimp only
    rw [if_pos rfl]
    exact deserialize_empty kind

theorem C1_typed_accessor_roundtrip_witness :
    get_value (set_value_one ⟨.integer, none⟩ .integer (some (.int 5))) .integer
        = .ok (some (.int 5))
    ∧ get_value ⟨.integer, some []⟩ .integer = .ok (emptyFallback .integer)
    ∧ get_value (set_value_one ⟨.time, none⟩ .time (some (.time ⟨0, 0, 0⟩))) .time
        = .ok none :=
  C1_typed_accessor_roundtrip .integer (.int 5) (by decide) ⟨.integer, none⟩ rfl
    (by decide)

/-- C7: the typed get accessor returns a value only when the field_type of
the entry equals the requested kind (every non-matching typed accessor
reports no value), and the typed set accessor writes the stored text only
when the kind matches field_type and the supplied value is present; any
other typed set leaves the record unchanged. -/
theorem C7_accessor_kind_guard (rec : DefaultValueRec) (name : FieldType)
    (v : Option Value) :
    (rec.field_type ≠ name → get_value rec name = .ok none)
    ∧ (∀ w, v = some w → name = rec.field_type →
        set_value_one rec name v = { rec with default_value := some (pyStrOfValue w) })
    ∧ ((name ≠ rec.field_type ∨ v = none) → set_value_one rec name v = rec) := by
  refine ⟨?_, ?_, ?_⟩
  · intro h
    unfold get_value
    rw [if_neg h]
  · intro w hw hn
    subst hw
    unfold set_value_one
    dsimp only
    rw [if_pos hn]
  · intro h
    unfold set_value_one
    cases v with
    | none => rfl
    | some w =>
        dsimp only
        rw [if_neg]
        rcases h with h | h
        · exact h
        · exact absurd h (by simp)

theorem C7_accessor_kind_guard_witness :
    get_value ⟨.integer, some ['1']⟩ .char = .ok none
    ∧ set_value_one ⟨.integer, some ['1']⟩ .char none = ⟨.integer, some ['1']⟩ :=
  ⟨(C7_accessor_kind_guard ⟨.integer, some ['1']⟩ .char none).1 (by decide),
   (C7_accessor_kind_guard ⟨.integer, some ['1']⟩ .char none).2.2 (Or.inr rfl)⟩

/-- The text interpolated by the %s format code: the str of None is the
four letters None. -/
def strInterp : Option (List Char) → List Char
  | none => noneLit
  | some s => s

def quoteCh : Char := Char.ofNat 39

def backslashCh : Char := Char.ofNat 92

def newlineCh : Char := Char.ofNat 10

/-- Characters that break or alter the single-quoted Python literal the
generated source embeds the stored text in; such text is modelled as a
failure of the construction step. -/
def hasBadLitChar (s : List Char) : Bool :=
  s.any (fun c => c = quoteCh || c = backslashCh || c = newlineCh)

/-- Is the character one of 0..7 (an octal digit). -/
def isOctDigitCh (c : Char) : Bool := decide (48 ≤ c.toNat) && decide (c.toNat ≤ 55)

/-- Numeric value of a big-endian octal digit string. -/
def parseOctBE (cs : List Char) : Nat := Nat.ofDigits 8 (cs.reverse.map charDigitVal)

/-- An unsigned integer literal of Python 2: decimal when the first digit
is not zero; with a leading zero the literal is octal, and a digit 8 or 9
after a leading zero is rejected by the Python 2 parser. -/
def py2NatLiteral (cs : List Char) : Except Unit Nat :=
  if cs = [] then .error ()
  else if cs.head? = some '0' then
    if cs.tail = [] then .ok 0
    else if cs.tail.all isOctDigitCh then .ok (parseOctBE cs) else .error ()
  else if cs.all isDigitCh then .ok (parseDigitsBE cs) else .error ()

/-- A Python 2 integer literal with an optional unary minus. -/
def py2IntLiteral (cs : List Char) : Except Unit Int :=
  if cs.head? = some '-' then
    match py2NatLiteral cs.tail with
    | .ok n => .ok (-(n : Int))
    | .error e => .error e
  else
    match py2NatLiteral cs with
    | .ok n => .ok ((n : Int))
    | .error e => .error e

/-- Is the character a letter or an underscore (the start of a Python
identifier). -/
def isPyIdentCh1 (c : Char) : Bool :=
  (decide (65 ≤ c.toNat) && decide (c.toNat ≤ 90)) ||
    (decide (97 ≤ c.toNat) && decide (c.toNat ≤ 122)) || decide (c.toNat = 95)

def isPyIdentCh (c : Char) : Bool := isPyIdentCh1 c || isDigitCh c

/-- Is the text a Python identifier. -/
def isPyIdent (cs : List Char) : Bool :=
  match cs with
  | [] => false
  | c :: rest => isPyIdentCh1 c && rest.all isPyIdentCh

/-- The outcome of exec of the generated source (def default_x colon
return t) followed by invoking the function, for the kinds whose stored
text is pasted bare into the source (boolean, integer, float, many2one).
The outer layer is the exec outcome, the inner layer the invocation
outcome.  Empty text gives a bare return statement, which is valid
Python 2, so the installed provider returns None.  Identifier text
compiles and the unbound name surfaces as a NameError only when the
provider is invoked.  Remaining text is folded into a construction
failure; this is an abstraction, since some such text (an attribute
access, a signed name) would also compile and fail only at invocation. -/
def evalPyExprText (cs : List Char) : Except Unit (Except Unit (Option Value)) :=
  if cs = [] then .ok (.ok none)
  else if cs = trueLit then .ok (.ok (some (.bool true)))
  else if cs = falseLit then .ok (.ok (some (.bool false)))
  else if cs = noneLit then .ok (.ok none)
  else
    match py2IntLiteral cs with
    | .ok i => .ok (.ok (some (.int i)))
    | .error _ =>
        if cs.contains '.' then
          match pyParseDec cs with
          | .ok d => .ok (.ok (some (.float d)))
          | .error _ => .error ()
        else if isPyIdent cs then .ok (.error ())
        else .error ()

/-- One stored-text slice pasted as a bare token into the generated
date(...) or time(...) call: a Python 2 integer literal yields its value,
an identifier compiles but raises NameError when the provider is invoked,
and other text makes the generated source ill formed (an abstraction for
the same reason as above; surrounding whitespace is not modelled). -/
def py2TokenEval (cs : List Char) : Except Unit (Except Unit Int) :=
  match py2IntLiteral cs with
  | .ok i => .ok (.ok i)
  | .error _ => if isPyIdent cs then .ok (.error ()) else .error ()

/-- The last token of the generated call: when the slice is empty the
call just ends in a trailing comma, which is valid Python 2, and the
missing argument surfaces as a TypeError when the provider is invoked. -/
def py2TokenEvalLast (cs : List Char) : Except Unit (Except Unit Int) :=
  if cs = [] then .ok (.error ()) else py2TokenEval cs

/-- Model of the provider construction of set_default_values (lines 210 to
244 of the source): from the field kind and the stored text, build the
zero argument default function.  The outer Except is the outcome of exec
and eval of the generated source (the construction); the inner Except is
the outcome of invoking the installed provider.  For date and time kinds
the slices of the stored text are pasted as bare tokens into the
generated call, so a leading zero makes a numeric slice octal, the digits
8 and 9 after a leading zero make the generated source ill formed, and an
identifier slice defers a NameError to the invocation; for date, datetime and time kinds the
source line is only generated when the stored text is truthy, so an entry
with empty stored text reuses a stale or missing name and is modelled as a
construction failure. -/
def buildProvider (ft : FieldType) (value : Option (List Char)) :
    Except Unit (Except Unit (Option Value)) :=
  match ft with
  | .char | .text | .selection | .reference =>
      if hasBadLitChar (strInterp value) then .error ()
      else .ok (.ok (some (.str (strInterp value))))
  | .boolean | .integer | .float | .many2one => evalPyExprText (strInterp value)
  | .numeric =>
      if hasBadLitChar (strInterp value) then .error ()
      else
        match pyParseDec (strInterp value) with
        | .ok d => .ok (.ok (some (.numeric d)))
        | .error _ => .ok (.error ())
  | .date =>
      if pyTruthy value then
        match py2TokenEval ((value.getD []).take 4),
            py2TokenEval (((value.getD []).drop 5).take 2),
            py2TokenEvalLast ((value.getD []).drop 8) with
        | .ok ty, .ok tm, .ok td =>
            match ty, tm, td with
            | .ok y, .ok mo, .ok dd =>
                match mkDate y mo dd with
                | .ok d => .ok (.ok (some (.date d)))
                | .error _ => .ok (.error ())
            | _, _, _ => .ok (.error ())
        | _, _, _ => .error ()
      else .error ()
  | .datetime =>
      if pyTruthy value then
        if hasBadLitChar (value.getD []) then .error ()
        else
          match parsePyDatetime (value.getD []) with
          | .ok dt => .ok (.ok (some (.datetime dt)))
          | .error _ => .ok (.error ())
      else .error ()
  | .time =>
      if pyTruthy value then
        match py2TokenEval ((value.getD []).take 2),
            py2TokenEval (((value.getD []).drop 3).take 2),
            py2TokenEvalLast ((value.getD []).drop 6) with
        | .ok th, .ok tmi, .ok ts =>
            match th, tmi, ts with
            | .ok h, .ok mi, .ok s =>
                match mkTime h mi s with
                | .ok t => .ok (.ok (some (.time t)))
                | .error _ => .ok (.error ())
            | _, _, _ => .ok (.error ())
        | _, _, _ => .error ()
      else .error ()

theorem natDigitsBE_head_ne_zero (n : Nat) (hn : n ≠ 0) :
    (natDigitsBE n).head? ≠ some '0' := by
  rw [natDigitsBE_eq, ← List.map_reverse, List.head?_map, List.head?_reverse]
  have hne : Nat.digits 10 n ≠ [] := Nat.digits_ne_nil_iff_ne_zero.mpr hn
  rw [List.getLast?_eq_getLast _ hne]
  intro hc
  have hc2 : digitToChar ((Nat.digits 10 n).getLast hne) = '0' := by simpa using hc
  have hlast := Nat.getLast_digit_ne_zero 10 hn
  have hmem : (Nat.digits 10 n).getLast hne ∈ Nat.digits 10 n := List.getLast_mem hne
  exact digitToChar_ne_zeroCh _ (Nat.digits_lt_base (by norm_num) hmem) hlast hc2

theorem py2NatLiteral_decimal (cs : List Char) (h1 : cs ≠ [])
    (hh : cs.head? ≠ some '0') (h2 : cs.all isDigitCh = true) :
    py2NatLiteral cs = .ok (parseDigitsBE cs) := by
  unfold py2NatLiteral
  rw [if_neg h1, if_neg hh, if_pos h2]

theorem py2NatLiteral_natStr (n : Nat) : py2NatLiteral (natStr n) = .ok n := by
  by_cases hn : n = 0
  · subst hn
    decide
  · have hform : natStr n = natDigitsBE n := by
      unfold natStr
      rw [if_neg hn]
    rw [hform, py2NatLiteral_decimal _
        (by rw [← hform]; exact natStr_ne_nil n)
        (natDigitsBE_head_ne_zero n hn)
        (natDigitsBE_all_digits n)]
    rw [← hform, parseDigitsBE_natStr]

theorem py2IntLiteral_intStr (i : Int) : py2IntLiteral (intStr i) = .ok i := by
  unfold intStr
  split
  · rename_i hneg
    unfold py2IntLiteral
    simp only [List.head?_cons, List.tail_cons, if_pos, py2NatLiteral_natStr]
    congr 1
    omega
  · rename_i hpos
    unfold py2IntLiteral
    rw [if_neg (head_digit_ne_minus _ (natStr_all_digits _)), py2NatLiteral_natStr]
    dsimp only
    congr 1
    omega

theorem py2IntLiteral_pad2 (n : Nat) (hn : n ≤ 59) (h8 : n ≠ 8) (h9 : n ≠ 9) :
    py2IntLiteral (padZeros 2 (natStr n)) = .ok (n : Int) := by
  interval_cases n <;> first
    | exact absurd rfl h8
    | exact absurd rfl h9
    | decide

theorem natStr_length_ge_four (y : Nat) (hy : 1000 ≤ y) : 4 ≤ (natStr y).length := by
  have hy0 : y ≠ 0 := by omega
  unfold natStr
  rw [if_neg hy0, natDigitsBE_eq, List.length_reverse, List.length_map]
  rw [Nat.digits_len 10 y (by norm_num) hy0]
  have hlog : 3 ≤ Nat.log 10 y :=
    (Nat.pow_le_iff_le_log (by norm_num) hy0).mp (by omega)
  omega

theorem padZeros_of_length_ge (k : Nat) (cs : List Char) (h : k ≤ cs.length) :
    padZeros k cs = cs := by
  unfold padZeros
  have hz : k - cs.length = 0 := by omega
  rw [hz]
  rfl

theorem py2IntLiteral_year (y : Nat) (h1 : 1000 ≤ y) :
    py2IntLiteral (padZeros 4 (natStr y)) = .ok (y : Int) := by
  rw [padZeros_of_length_ge 4 _ (natStr_length_ge_four y h1)]
  have hy0 : y ≠ 0 := by omega
  have hform : natStr y = natDigitsBE y := by
    unfold natStr
    rw [if_neg hy0]
  unfold py2IntLiteral
  rw [if_neg (head_digit_ne_minus _ (natStr_all_digits _)), py2NatLiteral_natStr]

theorem head_digit_of_all (cs : List Char) (h1 : cs ≠ []) (h2 : cs.all isDigitCh = true) :
    ∃ c t, cs = c :: t ∧ isDigitCh c = true := by
  cases cs with
  | nil => exact absurd rfl h1
  | cons a t =>
      rw [List.all_cons, Bool.and_eq_true] at h2
      exact ⟨a, t, rfl, h2.1⟩

theorem intStr_head (i : Int) :
    (intStr i).head? = some '-' ∨
      ∃ c, (intStr i).head? = some c ∧ isDigitCh c = true := by
  unfold intStr
  split
  · left
    rfl
  · right
    obtain ⟨c, t, hct, hd⟩ := head_digit_of_all _ (natStr_ne_nil i.natAbs)
      (natStr_all_digits i.natAbs)
    exact ⟨c, by rw [hct]; rfl, hd⟩

theorem serializeDec_head (d : PyDec) :
    (serializeDec d).head? = some '-' ∨
      ∃ c, (serializeDec d).head? = some c ∧ isDigitCh c = true := by
  unfold serializeDec
  split
  · exact intStr_head d.man
  · split
    · left
      rfl
    · right
      have hds := padZeros_all_digits (d.scale + 1) d.man.natAbs
      have hlen := padZeros_length_ge (d.scale + 1) (natStr d.man.natAbs)
      obtain ⟨c, t, hct, hd⟩ := head_digit_of_all
          ((padZeros (d.scale + 1) (natStr d.man.natAbs)).take
            ((padZeros (d.scale + 1) (natStr d.man.natAbs)).length - d.scale))
          (by
            intro hc
            have := congrArg List.length hc
            rw [List.length_take] at this
            simp only [List.length_nil] at this
            omega)
          (all_take _ _ _ hds)
      refine ⟨c, ?_, hd⟩
      rw [List.nil_append, hct]
      rfl

theorem ne_lit_of_head (cs lit : List Char) (c0 : Char)
    (hl : lit.head? = some c0) (hnd : isDigitCh c0 = false) (hnm : c0 ≠ '-')
    (h : cs.head? = some '-' ∨ ∃ c, cs.head? = some c ∧ isDigitCh c = true) :
    cs ≠ lit := by
  intro he
  subst he
  rcases h with h | ⟨c, hc, hd⟩
  · rw [hl] at h
    exact hnm (Option.some.inj h)
  · rw [hl] at hc
    rw [Option.some.inj hc] at hnd
    rw [hd] at hnd
    exact Bool.noConfusion hnd

theorem py2NatLiteral_with_dot (cs : List Char) (h : '.' ∈ cs) :
    py2NatLiteral cs = .error () := by
  unfold py2NatLiteral
  have hne : cs ≠ [] := by
    intro hc
    rw [hc] at h
    simp at h
  rw [if_neg hne]
  by_cases hh : cs.head? = some '0'
  · rw [if_pos hh]
    obtain ⟨c, t, hct⟩ := List.exists_cons_of_ne_nil hne
    subst hct
    simp only [List.head?_cons, Option.some.injEq] at hh
    subst hh
    have hdot_t : '.' ∈ t := by
      rcases List.mem_cons.mp h with h0 | h0
      · exact absurd h0 (by decide)
      · exact h0
    simp only [List.tail_cons]
    by_cases ht : t = []
    · rw [ht] at hdot_t
      simp at hdot_t
    · rw [if_neg ht, if_neg ?_]
      intro hall
      rw [List.all_eq_true] at hall
      exact absurd (hall '.' hdot_t) (by decide)
  · rw [if_neg hh, if_neg ?_]
    intro hall
    rw [List.all_eq_true] at hall
    exact absurd (hall '.' h) (by decide)

theorem py2IntLiteral_with_dot (cs : List Char) (h : '.' ∈ cs) :
    py2IntLiteral cs = .error () := by
  unfold py2IntLiteral
  by_cases hh : cs.head? = some '-'
  · rw [if_pos hh]
    have hne : cs ≠ [] := by
      intro hc
      rw [hc] at hh
      exact Option.noConfusion hh
    obtain ⟨c, t, hct⟩ := List.exists_cons_of_ne_nil hne
    subst hct
    simp only [List.head?_cons, Option.some.injEq] at hh
    subst hh
    have hdot_t : '.' ∈ t := by
      rcases List.mem_cons.mp h with h0 | h0
      · exact absurd h0 (by decide)
      · exact h0
    rw [List.tail_cons, py2NatLiteral_with_dot t hdot_t]
  · rw [if_neg hh, py2NatLiteral_with_dot cs h]

theorem serializeDec_has_dot (d : PyDec) (h : d.scale ≠ 0) : '.' ∈ serializeDec d := by
  unfold serializeDec
  rw [if_neg h]
  simp [List.mem_append]

theorem hasBadLitChar_eq_false (s : List Char)
    (h : ∀ c ∈ s, isDigitCh c = true ∨ c = '-' ∨ c = '.' ∨ c = ':' ∨ c = ' ') :
    hasBadLitChar s = false := by
  unfold hasBadLitChar
  rw [List.any_eq_false]
  intro c hc
  rcases h c hc with hd | h1 | h1 | h1 | h1
  · unfold isDigitCh at hd
    rw [Bool.and_eq_true, decide_eq_true_eq, decide_eq_true_eq] at hd
    have hq : c ≠ quoteCh := by
      intro he
      rw [he] at hd
      revert hd
      decide
    have hb : c ≠ backslashCh := by
      intro he
      rw [he] at hd
      revert hd
      decide
    have hw : c ≠ newlineCh := by
      intro he
      rw [he] at hd
      revert hd
      decide
    simp [hq, hb, hw]
  · subst h1
    decide
  · subst h1
    decide
  · subst h1
    decide
  · subst h1
    decide

theorem serializeDec_chars (d : PyDec) :
    ∀ c ∈ serializeDec d, isDigitCh c = true ∨ c = '-' ∨ c = '.' := by
  unfold serializeDec
  intro c hc
  split at hc
  · unfold intStr at hc
    split at hc
    · rcases List.mem_cons.mp hc with h | h
      · right
        left
        exact h
      · left
        exact (List.all_eq_true.mp (natStr_all_digits _)) c h
    · left
      exact (List.all_eq_true.mp (natStr_all_digits _)) c hc
  · rw [List.mem_append] at hc
    rcases hc with h | h
    · split at h
      · right
        left
        simpa using h
      · simp at h
    · rw [List.mem_append] at h
      rcases h with h | h
      · left
        exact (List.all_eq_true.mp (padZeros_all_digits _ _)) c (List.take_subset _ _ h)
      · rcases List.mem_cons.mp h with h0 | h0
        · right
          right
          exact h0
        · left
          exact (List.all_eq_true.mp (padZeros_all_digits _ _)) c (List.drop_subset _ _ h0)

theorem serializeDate_chars (d : PyDate) :
    ∀ c ∈ serializeDate d, isDigitCh c = true ∨ c = '-' := by
  unfold serializeDate
  intro c hc
  rw [List.mem_append] at hc
  rcases hc with h | h
  · left
    exact (List.all_eq_true.mp (padZeros_all_digits _ _)) c h
  · rcases List.mem_cons.mp h with h0 | h0
    · right
      exact h0
    · rw [List.mem_append] at h0
      rcases h0 with h1 | h1
      · left
        exact (List.all_eq_true.mp (padZeros_all_digits _ _)) c h1
      · rcases List.mem_cons.mp h1 with h2 | h2
        · right
          exact h2
        · left
          exact (List.all_eq_true.mp (padZeros_all_digits _ _)) c h2

theorem serializeTime_chars (t : PyTime) :
    ∀ c ∈ serializeTime t, isDigitCh c = true ∨ c = ':' := by
  unfold serializeTime
  intro c hc
  rw [List.mem_append] at hc
  rcases hc with h | h
  · left
    exact (List.all_eq_true.mp (padZeros_all_digits _ _)) c h
  · rcases List.mem_cons.mp h with h0 | h0
    · right
      exact h0
    · rw [List.mem_append] at h0
      rcases h0 with h1 | h1
      · left
        exact (List.all_eq_true.mp (padZeros_all_digits _ _)) c h1
      · rcases List.mem_cons.mp h1 with h2 | h2
        · right
          exact h2
        · left
          exact (List.all_eq_true.mp (padZeros_all_digits _ _)) c h2

theorem serializeDatetime_chars (dt : PyDatetime) :
    ∀ c ∈ serializeDatetime dt,
      isDigitCh c = true ∨ c = '-' ∨ c = '.' ∨ c = ':' ∨ c = ' ' := by
  unfold serializeDatetime
  intro c hc
  rw [List.mem_append] at hc
  rcases hc with h | h
  · rcases serializeDate_chars dt.date c h with h0 | h0
    · left
      exact h0
    · right
      left
      exact h0
  · rcases List.mem_cons.mp h with h0 | h0
    · right
      right
      right
      right
      exact h0
    · rcases serializeTime_chars dt.time c h0 with h1 | h1
      · left
        exact h1
      · right
        right
        right
        left
        exact h1

theorem validPyDate_bounds (d : PyDate) (h : validPyDate d = true) :
    1 ≤ d.year ∧ d.year ≤ 9999 ∧ 1 ≤ d.month ∧ d.month ≤ 12 ∧ 1 ≤ d.day ∧ d.day ≤ 31 := by
  have hlt := validPyDate_day_lt d h
  unfold validPyDate at h
  simp only [Bool.and_eq_true, decide_eq_true_eq] at h
  have hmax : daysInMonth d.year d.month ≤ 31 := by
    unfold daysInMonth
    split
    · split <;> omega
    · split <;> omega
  omega

theorem validPyTime_bounds (t : PyTime) (h : validPyTime t = true) :
    t.hour ≤ 23 ∧ t.minute ≤ 59 ∧ t.second ≤ 59 := by
  unfold validPyTime at h
  simp only [Bool.and_eq_true, decide_eq_true_eq] at h
  omega

theorem py2TokenEval_of_literal (cs : List Char) (i : Int)
    (h : py2IntLiteral cs = .ok i) : py2TokenEval cs = .ok (.ok i) := by
  unfold py2TokenEval
  rw [h]

theorem py2IntLiteral_ne_nil (cs : List Char) (i : Int)
    (h : py2IntLiteral cs = .ok i) : cs ≠ [] := by
  intro he
  rw [he, show py2IntLiteral [] = .error () from rfl] at h
  exact Except.noConfusion h

theorem py2TokenEvalLast_of_literal (cs : List Char) (i : Int)
    (h : py2IntLiteral cs = .ok i) : py2TokenEvalLast cs = .ok (.ok i) := by
  unfold py2TokenEvalLast
  rw [if_neg (py2IntLiteral_ne_nil cs i h)]
  exact py2TokenEval_of_literal cs i h

/-- The extra conditions under which the generated provider source is
faithful to the typed accessors: text free of literal-breaking
characters; dates with years of four significant digits and month and
day other than 8 and 9; times with no component equal to 8 or 9 and
other than midnight (the provider returns the midnight time object while
get_value, by the and/or idiom, returns None for it).  The many2one kind
is excluded, because its provider returns the integer identifier while
the typed accessor returns its string form. -/
def providerSafe : FieldType → Value → Bool
  | .char, .str s => !hasBadLitChar s
  | .text, .str s => !hasBadLitChar s
  | .selection, .str s => !hasBadLitChar s
  | .reference, .str s => !hasBadLitChar s
  | .date, .date d =>
      decide (1000 ≤ d.year) && decide (d.month ≠ 8) && decide (d.month ≠ 9) &&
        decide (d.day ≠ 8) && decide (d.day ≠ 9)
  | .time, .time t =>
      decide (t.hour ≠ 8) && decide (t.hour ≠ 9) && decide (t.minute ≠ 8) &&
        decide (t.minute ≠ 9) && decide (t.second ≠ 8) && decide (t.second ≠ 9) &&
        pyTruthyTime t
  | .many2one, _ => false
  | _, _ => true

/-- C4 counterexample: with the integer kind and the empty stored string
the typed get accessor returns 0, while the generated source is a bare
return statement — valid Python 2 — so the exec succeeds and the installed
provider returns None rather than 0.  The claim quantifies over every
stored text value including the empty string, so it fails here. -/
theorem C4_counterexample :
    get_value ⟨.integer, some []⟩ .integer = .ok (some (.int 0))
    ∧ buildProvider .integer (some []) = .ok (.ok none)
    ∧ ¬ buildProvider .integer (some []) = .ok (.ok (some (.int 0))) := by
  refine ⟨by decide, by decide, by decide⟩

/-- C4 amended: restricted to non-many2one kinds and to stored values
produced by the matching typed set accessor that avoid the pitfalls of the
generated source and of the falsy-midnight read path (no quote, backslash
or newline in text values; years of four significant digits and month and
day other than 8 and 9 in dates; no time component equal to 8 or 9 and
times other than midnight), the installed provider returns exactly the
value that the typed get accessor of the matching kind returns. -/
theorem C4_provider_matches_accessor (kind : FieldType) (v : Value)
    (hdom : inDomain kind v = true) (hsafe : providerSafe kind v = true) :
    buildProvider kind (some (pyStrOfValue v)) = .ok (.ok (some v))
    ∧ get_value ⟨kind, some (pyStrOfValue v)⟩ kind = .ok (some v) := by
  refine ⟨?_, ?_⟩
  · cases kind <;> cases v <;> try exact Bool.noConfusion hdom
    case boolean.bool b =>
        cases b <;> decide
    case integer.int i =>
        show evalPyExprText (intStr i) = .ok (.ok (some (.int i)))
        unfold evalPyExprText
        rw [if_neg (intStr_ne_nil i),
          if_neg (ne_lit_of_head _ trueLit 'T' rfl (by decide) (by decide) (intStr_head i)),
          if_neg (ne_lit_of_head _ falseLit 'F' rfl (by decide) (by decide) (intStr_head i)),
          if_neg (ne_lit_of_head _ noneLit 'N' rfl (by decide) (by decide) (intStr_head i)),
          py2IntLiteral_intStr]
    case float.float d =>
        have hscale : d.scale ≠ 0 := by
          rw [inDomain, Bool.and_eq_true, decide_eq_true_eq] at hdom
          omega
        have hdot := serializeDec_has_dot d hscale
        show evalPyExprText (serializeDec d) = .ok (.ok (some (.float d)))
        unfold evalPyExprText
        rw [if_neg (serializeDec_ne_nil d),
          if_neg (ne_lit_of_head _ trueLit 'T' rfl (by decide) (by decide) (serializeDec_head d)),
          if_neg (ne_lit_of_head _ falseLit 'F' rfl (by decide) (by decide) (serializeDec_head d)),
          if_neg (ne_lit_of_head _ noneLit 'N' rfl (by decide) (by decide) (serializeDec_head d)),
          py2IntLiteral_with_dot _ hdot]
        dsimp only
        rw [if_pos (List.elem_iff.mpr hdot), pyParseDec_serializeDec]
    case numeric.numeric d =>
        have hbad : hasBadLitChar (serializeDec d) = false := by
          refine hasBadLitChar_eq_false _ (fun c hc => ?_)
          rcases serializeDec_chars d c hc with h | h | h
          · exact Or.inl h
          · exact Or.inr (Or.inl h)
          · exact Or.inr (Or.inr (Or.inl h))
        show buildProvider .numeric (some (serializeDec d)) = .ok (.ok (some (.numeric d)))
        unfold buildProvider strInterp
        dsimp only
        rw [if_neg (by rw [hbad]; exact Bool.noConfusion), pyParseDec_serializeDec]
    case char.str s =>
        have hbad : hasBadLitChar s = false := by
          simp only [providerSafe] at hsafe
          simpa using hsafe
        show buildProvider .char (some s) = .ok (.ok (some (.str s)))
        unfold buildProvider strInterp
        dsimp only
        rw [if_neg (by rw [hbad]; exact Bool.noConfusion)]
    case text.str s =>
        have hbad : hasBadLitChar s = false := by
          simp only [providerSafe] at hsafe
          simpa using hsafe
        show buildProvider .text (some s) = .ok (.ok (some (.str s)))
        unfold buildProvider strInterp
        dsimp only
        rw [if_neg (by rw [hbad]; exact Bool.noConfusion)]
    case selection.str s =>
        have hbad : hasBadLitChar s = false := by
          simp only [providerSafe] at hsafe
          simpa using hsafe
        show buildProvider .selection (some s) = .ok (.ok (some (.str s)))
        unfold buildProvider strInterp
        dsimp only
        rw [if_neg (by rw [hbad]; exact Bool.noConfusion)]
    case reference.str s =>
        have hbad : hasBadLitChar s = false := by
          simp only [providerSafe] at hsafe
          simpa using hsafe
        show buildProvider .reference (some s) = .ok (.ok (some (.str s)))
        unfold buildProvider strInterp
        dsimp only
        rw [if_neg (by rw [hbad]; exact Bool.noConfusion)]
    case many2one.str s =>
        exact Bool.noConfusion hsafe
    case date.date d =>
        rw [providerSafe] at hsafe
        simp only [Bool.and_eq_true, decide_eq_true_eq] at hsafe
        obtain ⟨⟨⟨⟨hy1000, hm8⟩, hm9⟩, hd8⟩, hd9⟩ := hsafe
        have hb := validPyDate_bounds d hdom
        have hy4 : (padZeros 4 (natStr d.year)).length = 4 :=
          padZeros_natStr_length 4 d.year (by norm_num) (validPyDate_year_lt d hdom)
        have hm2 : (padZeros 2 (natStr d.month)).length = 2 :=
          padZeros_natStr_length 2 d.month (by norm_num) (validPyDate_month_lt d hdom)
        show buildProvider .date (some (serializeDate d)) = .ok (.ok (some (.date d)))
        have hpt : pyTruthy (some (serializeDate d)) = true := by
          unfold pyTruthy
          simp [serializeDate_ne_nil d]
        unfold buildProvider serializeDate
        dsimp only
        rw [if_pos (by unfold serializeDate at hpt; exact hpt)]
        simp only [Option.getD_some]
        rw [take_app _ _ _ _ hy4]
        rw [drop_app2 _ _ _ _ _ 4 2 8 hy4 hm2 (by norm_num)]
        rw [show (5 : Nat) = 4 + 1 from rfl, drop_app1 _ _ _ _ hy4]
        rw [take_app _ _ _ _ hm2]
        rw [py2TokenEval_of_literal _ _ (py2IntLiteral_year d.year hy1000),
          py2TokenEval_of_literal _ _ (py2IntLiteral_pad2 d.month (by omega) hm8 hm9),
          py2TokenEvalLast_of_literal _ _ (py2IntLiteral_pad2 d.day (by omega) hd8 hd9)]
        dsimp only
        rw [mkDate_valid d hdom]
    case datetime.datetime dt =>
        rw [inDomain, Bool.and_eq_true] at hdom
        have hbad : hasBadLitChar (serializeDatetime dt) = false :=
          hasBadLitChar_eq_false _ (serializeDatetime_chars dt)
        show buildProvider .datetime (some (serializeDatetime dt)) =
          .ok (.ok (some (.datetime dt)))
        have hpt : pyTruthy (some (serializeDatetime dt)) = true := by
          unfold pyTruthy
          simp [serializeDatetime_ne_nil dt]
        unfold buildProvider
        dsimp only
        rw [if_pos hpt]
        simp only [Option.getD_some]
        rw [if_neg (by rw [hbad]; exact Bool.noConfusion),
          parsePyDatetime_serializeDatetime dt hdom.1 hdom.2]
    case time.time t =>
        rw [providerSafe] at hsafe
        simp only [Bool.and_eq_true, decide_eq_true_eq] at hsafe
        obtain ⟨⟨⟨⟨⟨⟨hh8, hh9⟩, hmi8⟩, hmi9⟩, hs8⟩, hs9⟩, htr⟩ := hsafe
        have hb := validPyTime_bounds t hdom
        have hh2 : (padZeros 2 (natStr t.hour)).length = 2 :=
          padZeros_natStr_length 2 t.hour (by norm_num) (validPyTime_lt t hdom).1
        have hm2 : (padZeros 2 (natStr t.minute)).length = 2 :=
          padZeros_natStr_length 2 t.minute (by norm_num) (validPyTime_lt t hdom).2.1
        show buildProvider .time (some (serializeTime t)) = .ok (.ok (some (.time t)))
        have hpt : pyTruthy (some (serializeTime t)) = true := by
          unfold pyTruthy
          simp [serializeTime_ne_nil t]
        unfold buildProvider serializeTime
        dsimp only
        rw [if_pos (by unfold serializeTime at hpt; exact hpt)]
        simp only [Option.getD_some]
        rw [take_app _ _ _ _ hh2]
        rw [drop_app2 _ _ _ _ _ 2 2 6 hh2 hm2 (by norm_num)]
        rw [show (3 : Nat) = 2 + 1 from rfl, drop_app1 _ _ _ _ hh2]
        rw [take_app _ _ _ _ hm2]
        rw [py2TokenEval_of_literal _ _ (py2IntLiteral_pad2 t.hour (by omega) hh8 hh9),
          py2TokenEval_of_literal _ _ (py2IntLiteral_pad2 t.minute (by omega) hmi8 hmi9),
          py2TokenEvalLast_of_literal _ _ (py2IntLiteral_pad2 t.second (by omega) hs8 hs9)]
        dsimp only
        rw [mkTime_valid t hdom]
  · unfold get_value
    dsimp only
    rw [if_pos rfl]
    refine deserialize_roundtrip kind v hdom ?_
    intro he
    subst he
    cases kind <;> first
      | exact Bool.noConfusion hdom
      | exact absurd hsafe (by decide)

theorem C4_provider_matches_accessor_witness :
    buildProvider .boolean (some (pyStrOfValue (.bool true))) = .ok (.ok (some (.bool true)))
    ∧ get_value ⟨.boolean, some (pyStrOfValue (.bool true))⟩ .boolean
        = .ok (some (.bool true)) :=
  C4_provider_matches_accessor .boolean (.bool true) (by decide) (by decide)

/-- A field descriptor row of ir.model.field: its name, the name of its
owning model, its ttype and whether the field of the target model is a
functional (fields.Function) field. -/
structure FieldDescr where
  name : String
  modelName : String
  ttype : FieldType
  isFunction : Bool

/-- The host environment: the metadata catalog and the target models.
fieldOf resolves a field identifier; hasDefaultAttr states whether the
target model class has an attribute default_<field name> (the hasattr
check of create); declaredSelection lists the declared selection of a
field of a model; relationOf gives the related model of a many2one field;
recordsOf lists the records of a model as identifier and display name. -/
structure Env where
  fieldOf : Nat → FieldDescr
  hasDefaultAttr : String → String → Bool
  declaredSelection : String → String → List (Option String × String)
  relationOf : Nat → String
  recordsOf : String → List (Nat × String)

/-- A persisted default.value row: its surrogate id, the referenced field
id (the model reference follows from the field descriptor) and the stored
default_value text. -/
structure Entry where
  id : Nat
  fieldId : Nat
  default_value : Option (List Char)
deriving DecidableEq, Repr

/-- An installed zero argument default provider, identified with the
outcome of invoking it. -/
abbrev Provider := Except Unit (Option Value)

/-- The process state: the persisted rows, the in-memory per-model
default-provider mapping (keyed by model name and field name), and the
next surrogate row id. -/
structure SysState where
  store : List Entry
  defaults : List ((String × String) × Provider)
  nextId : Nat

def entryField (env : Env) (e : Entry) : FieldDescr := env.fieldOf e.fieldId

/-- The key under which an entry provider lives in the mapping. -/
def entryKey (env : Env) (e : Entry) : String × String :=
  ((entryField env e).modelName, (entryField env e).name)

def lookupDefault (ds : List ((String × String) × Provider)) (k : String × String) :
    Option Provider :=
  (ds.find? (fun kv => decide (kv.1 = k))).map (fun kv => kv.2)

/-- Model._defaults[name] = f: dictionary assignment. -/
def installDefault (ds : List ((String × String) × Provider)) (k : String × String)
    (p : Provider) : List ((String × String) × Provider) :=
  (k, p) :: ds.filter (fun kv => decide (kv.1 ≠ k))

/-- del Model._defaults[name]: dictionary removal. -/
def removeDefault (ds : List ((String × String) × Provider)) (k : String × String) :
    List ((String × String) × Provider) :=
  ds.filter (fun kv => decide (kv.1 ≠ k))

/-- set_default_values (lines 199 to 244): walk the given entries, build
each provider and install it under the model and field name of the entry;
a construction failure raises, keeping the installs made so far (the Bool
is true when the walk raised). -/
def set_default_values (env : Env) (es : List Entry)
    (ds : List ((String × String) × Provider)) :
    List ((String × String) × Provider) × Bool :=
  match es with
  | [] => (ds, false)
  | e :: rest =>
      match buildProvider (entryField env e).ttype e.default_value with
      | .error _ => (ds, true)
      | .ok p => set_default_values env rest (installDefault ds (entryKey env e) p)

inductive CreateErr
  | fieldHasDefault (fieldName : String)
  | fieldIsFunctional (fieldName : String)
  | uniqueViolation
deriving DecidableEq, Repr

/-- The values of one row passed to create. -/
structure CreateVals where
  fieldId : Nat
  default_value : Option (List Char) := none
deriving DecidableEq, Repr

/-- The validation loop of create (lines 172 to 180): the first offending
row decides the error, the hasattr check firing before the functional
check. -/
def validateVals (env : Env) : List CreateVals → Option CreateErr
  | [] => none
  | v :: rest =>
      let f := env.fieldOf v.fieldId
      if env.hasDefaultAttr f.modelName f.name then some (.fieldHasDefault f.name)
      else if f.isFunction then some (.fieldIsFunctional f.name)
      else validateVals env rest

def assignIds (n : Nat) : List CreateVals → List Entry
  | [] => []
  | v :: rest => ⟨n, v.fieldId, v.default_value⟩ :: assignIds (n + 1) rest

/-- create (lines 168 to 181): validate every row, then insert through the
store, which enforces the declared uniqueness constraint on field.  The
error aborts before anything is persisted, and create does not touch the
default-provider mapping. -/
def create (env : Env) (st : SysState) (vlist : List CreateVals) :
    Except CreateErr SysState :=
  match validateVals env vlist with
  | some err => .error err
  | none =>
      if ((st.store ++ assignIds st.nextId vlist).map (fun e => e.fieldId)).Nodup then
        .ok { st with store := st.store ++ assignIds st.nextId vlist,
                      nextId := st.nextId + vlist.length }
      else .error .uniqueViolation

/-- The values of one write action. -/
structure WriteVals where
  fieldId : Option Nat := none
  default_value : Option (Option (List Char)) := none
deriving DecidableEq, Repr

def applyWrite (w : WriteVals) (e : Entry) : Entry :=
  { e with fieldId := w.fieldId.getD e.fieldId,
           default_value := w.default_value.getD e.default_value }

def writeStore (store : List Entry) (ids : List Nat) (w : WriteVals) : List Entry :=
  store.map (fun e => if e.id ∈ ids then applyWrite w e else e)

def applyActions (store : List Entry) : List (List Nat × WriteVals) → List Entry
  | [] => store
  | (ids, w) :: rest => applyActions (writeStore store ids w) rest

/-- The loop of write after super: set_default_values on each written
group, stopping at the first raise. -/
def runGroups (env : Env) (store : List Entry) (args : List (List Nat × WriteVals))
    (ds : List ((String × String) × Provider)) :
    List ((String × String) × Provider) × Bool :=
  match args with
  | [] => (ds, false)
  | (ids, _) :: rest =>
      let recs := store.filter (fun e => decide (e.id ∈ ids))
      match set_default_values env recs ds with
      | (ds1, true) => (ds1, true)
      | (ds1, false) => runGroups env store rest ds1

/-- write (lines 183 to 188): super().write applies every action pair
under the uniqueness constraint of the store, then set_default_values runs
on each written group of records.  The Bool reports a raise (constraint
violation, with the state unchanged, or a provider construction failure,
with the writes and the installs made so far kept). -/
def write (env : Env) (st : SysState) (args : List (List Nat × WriteVals)) :
    SysState × Bool :=
  let newStore := applyActions st.store args
  if (newStore.map (fun e => e.fieldId)).Nodup then
    match runGroups env newStore args st.defaults with
    | (ds, raised) => ({ st with store := newStore, defaults := ds }, raised)
  else (st, true)

def removeEntryDefault (env : Env) (ds : List ((String × String) × Provider))
    (e : Entry) : List ((String × String) × Provider) :=
  if (lookupDefault ds (entryKey env e)).isSome then removeDefault ds (entryKey env e)
  else ds

/-- delete (lines 190 to 197): for each record, remove its field name from
the default mapping of its model when present, then delete the rows. -/
def delete (env : Env) (st : SysState) (ids : List Nat) : SysState :=
  let victims := st.store.filter (fun e => decide (e.id ∈ ids))
  { st with store := st.store.filter (fun e => decide (e.id ∉ ids)),
            defaults := victims.foldl (removeEntryDefault env) st.defaults }

/-- load_default_values (lines 157 to 166): the startup re-hydration pass
runs set_default_values over every persisted entry inside a bare
try-except, converting any raise into a logged warning (the Bool). -/
def load_default_values (env : Env) (st : SysState) : SysState × Bool :=
  match set_default_values env st.store st.defaults with
  | (ds, raised) => ({ st with defaults := ds }, raised)

/-- The states reachable through the operations of the module from the
empty installation. -/
inductive Reachable (env : Env) : SysState → Prop
  | init : Reachable env ⟨[], [], 0⟩
  | create_ok (st : SysState) (vlist : List CreateVals) (st' : SysState) :
      Reachable env st → create env st vlist = .ok st' → Reachable env st'
  | write_step (st : SysState) (args : List (List Nat × WriteVals)) :
      Reachable env st → Reachable env (write env st args).1
  | delete_step (st : SysState) (ids : List Nat) :
      Reachable env st → Reachable env (delete env st ids)
  | load_step (st : SysState) :
      Reachable env st → Reachable env (load_default_values env st).1

theorem find?_filter_keyne (ds : List ((String × String) × Provider))
    (k k2 : String × String) (hne : k2 ≠ k) :
    (ds.filter (fun kv => decide (kv.1 ≠ k))).find? (fun kv => decide (kv.1 = k2))
      = ds.find? (fun kv => decide (kv.1 = k2)) := by
  induction ds with
  | nil => rfl
  | cons a t ih =>
      by_cases ha : a.1 = k
      · rw [List.filter_cons_of_neg (by simpa using ha), ih,
          List.find?_cons_of_neg _ (by rw [ha]; simpa using fun h : k = k2 => hne h.symm)]
      · rw [List.filter_cons_of_pos (by simpa using ha)]
        by_cases ha2 : a.1 = k2
        · rw [List.find?_cons_of_pos _ (by simpa using ha2),
            List.find?_cons_of_pos _ (by simpa using ha2)]
        · rw [List.find?_cons_of_neg _ (by simpa using ha2),
            List.find?_cons_of_neg _ (by simpa using ha2), ih]

theorem lookupDefault_install_self (ds : List ((String × String) × Provider))
    (k : String × String) (p : Provider) :
    lookupDefault (installDefault ds k p) k = some p := by
  unfold lookupDefault installDefault
  rw [List.find?_cons_of_pos _ (by simp)]
  rfl

theorem lookupDefault_install_other (ds : List ((String × String) × Provider))
    (k : String × String) (p : Provider) (k2 : String × String) (hne : k2 ≠ k) :
    lookupDefault (installDefault ds k p) k2 = lookupDefault ds k2 := by
  unfold lookupDefault installDefault
  rw [List.find?_cons_of_neg _ (by simpa using fun h => hne h.symm),
    find?_filter_keyne ds k k2 hne]

theorem lookupDefault_remove_self (ds : List ((String × String) × Provider))
    (k : String × String) :
    lookupDefault (removeDefault ds k) k = none := by
  unfold lookupDefault removeDefault
  rw [List.find?_eq_none.mpr]
  · rfl
  · intro kv hkv
    rw [List.mem_filter] at hkv
    simpa using hkv.2

theorem lookupDefault_remove_other (ds : List ((String × String) × Provider))
    (k k2 : String × String) (hne : k2 ≠ k) :
    lookupDefault (removeDefault ds k) k2 = lookupDefault ds k2 := by
  unfold lookupDefault removeDefault
  rw [find?_filter_keyne ds k k2 hne]

theorem removeEntryDefault_other (env : Env) (ds : List ((String × String) × Provider))
    (e : Entry) (k : String × String) (hne : k ≠ entryKey env e) :
    lookupDefault (removeEntryDefault env ds e) k = lookupDefault ds k := by
  unfold removeEntryDefault
  split
  · exact lookupDefault_remove_other ds (entryKey env e) k hne
  · rfl

theorem removeEntryDefault_self (env : Env) (ds : List ((String × String) × Provider))
    (e : Entry) :
    lookupDefault (removeEntryDefault env ds e) (entryKey env e) = none := by
  unfold removeEntryDefault
  split
  · exact lookupDefault_remove_self ds (entryKey env e)
  · rename_i hnone
    rw [Bool.not_eq_true] at hnone
    cases ho : lookupDefault ds (entryKey env e) with
    | none => rfl
    | some p =>
        rw [ho] at hnone
        exact Bool.noConfusion hnone

theorem removeEntryDefault_none (env : Env) (ds : List ((String × String) × Provider))
    (e : Entry) (k : String × String) (h : lookupDefault ds k = none) :
    lookupDefault (removeEntryDefault env ds e) k = none := by
  by_cases hk : k = entryKey env e
  · rw [hk]
    exact removeEntryDefault_self env ds e
  · rw [removeEntryDefault_other env ds e k hk]
    exact h

theorem foldl_remove_frame (env : Env) (vs : List Entry)
    (ds : List ((String × String) × Provider)) (k : String × String)
    (h : ∀ e ∈ vs, entryKey env e ≠ k) :
    lookupDefault (vs.foldl (removeEntryDefault env) ds) k = lookupDefault ds k := by
  induction vs generalizing ds with
  | nil => rfl
  | cons v t ih =>
      rw [List.foldl_cons, ih (removeEntryDefault env ds v)
        (fun e he => h e (List.mem_cons_of_mem v he))]
      exact removeEntryDefault_other env ds v k
        (fun hc => h v (List.mem_cons_self v t) hc.symm)

theorem foldl_remove_none (env : Env) (vs : List Entry)
    (ds : List ((String × String) × Provider)) (k : String × String)
    (h : lookupDefault ds k = none) :
    lookupDefault (vs.foldl (removeEntryDefault env) ds) k = none := by
  induction vs generalizing ds with
  | nil => exact h
  | cons v t ih =>
      rw [List.foldl_cons]
      exact ih _ (removeEntryDefault_none env ds v k h)

theorem foldl_remove_mem (env : Env) (vs : List Entry) (e : Entry) (he : e ∈ vs) :
    ∀ ds, lookupDefault (vs.foldl (removeEntryDefault env) ds) (entryKey env e) = none := by
  induction vs with
  | nil => simp at he
  | cons v t ih =>
      intro ds
      rw [List.foldl_cons]
      rcases List.mem_cons.mp he with h0 | h0
      · subst h0
        exact foldl_remove_none env t _ _ (removeEntryDefault_self env ds e)
      · exact ih h0 _

theorem lookupDefault_install_isSome (ds : List ((String × String) × Provider))
    (k : String × String) (p : Provider) (k2 : String × String)
    (h : (lookupDefault ds k2).isSome = true) :
    (lookupDefault (installDefault ds k p) k2).isSome = true := by
  by_cases hk : k2 = k
  · subst hk
    rw [lookupDefault_install_self]
    rfl
  · rw [lookupDefault_install_other ds k p k2 hk]
    exact h

theorem set_default_values_mono (env : Env) (es : List Entry)
    (ds : List ((String × String) × Provider)) (k : String × String)
    (h : (lookupDefault ds k).isSome = true) :
    (lookupDefault (set_default_values env es ds).1 k).isSome = true := by
  induction es generalizing ds with
  | nil => exact h
  | cons e t ih =>
      unfold set_default_values
      cases hb : buildProvider (entryField env e).ttype e.default_value with
      | error u => exact h
      | ok p => exact ih _ (lookupDefault_install_isSome ds (entryKey env e) p k h)

theorem set_default_values_installs (env : Env) (es : List Entry)
    (ds : List ((String × String) × Provider))
    (hok : (set_default_values env es ds).2 = false) :
    ∀ e ∈ es,
      (lookupDefault (set_default_values env es ds).1 (entryKey env e)).isSome = true := by
  induction es generalizing ds with
  | nil =>
      intro e he
      simp at he
  | cons v t ih =>
      intro e he
      unfold set_default_values at hok ⊢
      cases hb : buildProvider (entryField env v).ttype v.default_value with
      | error u =>
          rw [hb] at hok
          exact absurd hok (by simp)
      | ok p =>
          rw [hb] at hok
          dsimp only at hok ⊢
          rcases List.mem_cons.mp he with h0 | h0
          · subst h0
            exact set_default_values_mono env t _ _
              (by rw [lookupDefault_install_self]; rfl)
          · exact ih _ hok e h0

theorem set_default_values_raised (env : Env) (es : List Entry)
    (ds : List ((String × String) × Provider)) :
    (set_default_values env es ds).2 = true ↔
      ∃ e ∈ es, buildProvider (entryField env e).ttype e.default_value = .error () := by
  induction es generalizing ds with
  | nil => simp [set_default_values]
  | cons v t ih =>
      unfold set_default_values
      cases hb : buildProvider (entryField env v).ttype v.default_value with
      | error u =>
          dsimp only
          constructor
          · intro _
            refine ⟨v, List.mem_cons_self v t, ?_⟩
            rw [hb]
          · intro _
            rfl
      | ok p =>
          dsimp only
          constructor
          · intro h
            obtain ⟨e, he, hbe⟩ := (ih _).mp h
            exact ⟨e, List.mem_cons_of_mem v he, hbe⟩
          · rintro ⟨e, he, hbe⟩
            rcases List.mem_cons.mp he with h0 | h0
            · subst h0
              rw [hb] at hbe
              exact Except.noConfusion hbe
            · exact (ih _).mpr ⟨e, h0, hbe⟩

/-- A small concrete environment: every field id resolves to the char
field f of model m, no model exposes a programmatic default, no field is
functional. -/
def envA : Env :=
  ⟨fun _ => ⟨"f", "m", .char, false⟩, fun _ _ => false, fun _ _ => [],
    fun _ => "m", fun _ => []⟩

theorem reachable_store_nodup (env : Env) (st : SysState) (h : Reachable env st) :
    (st.store.map (fun e => e.fieldId)).Nodup := by
  induction h with
  | init => simp
  | create_ok st vlist st' hr hc ih =>
      rw [create] at hc
      split at hc
      · exact absurd hc (by simp)
      · split at hc
        · rename_i hnodup
          cases hc
          exact hnodup
        · exact absurd hc (by simp)
  | write_step st args hr ih =>
      rw [write]
      split
      · rename_i hnodup
        exact hnodup
      · exact ih
  | delete_step st ids hr ih =>
      rw [delete]
      dsimp only
      exact ih.sublist (List.Sublist.map _ (List.filter_sublist _))
  | load_step st hr ih =>
      rw [load_default_values]
      exact ih

/-- C6: across every state reachable through the operations of the module
no two persisted entries reference the same field (the declared store
uniqueness constraint on the field column), and creating a second entry
for a field that already has one, when the row passes the validation
checks, fails with the uniqueness violation of the store. -/
theorem C6_unique_per_field (env : Env) :
    (∀ st, Reachable env st → (st.store.map (fun e => e.fieldId)).Nodup)
    ∧ (∀ st (v : CreateVals), validateVals env [v] = none →
        (∃ e ∈ st.store, e.fieldId = v.fieldId) →
        create env st [v] = .error .uniqueViolation) := by
  constructor
  · exact fun st h => reachable_store_nodup env st h
  · rintro st v hval ⟨e, he, hef⟩
    rw [create, hval]
    rw [if_neg ?_]
    intro hnodup
    rw [List.map_append, List.nodup_append] at hnodup
    have hm1 : v.fieldId ∈ st.store.map (fun e => e.fieldId) :=
      List.mem_map.mpr ⟨e, he, hef⟩
    have hm2 : v.fieldId ∈ (assignIds st.nextId [v]).map (fun e => e.fieldId) := by
      rw [assignIds, assignIds]
      simp
    exact hnodup.2.2 hm1 hm2

theorem C6_unique_per_field_witness :
    create envA ⟨[⟨0, 1, some ['x']⟩], [], 1⟩ [⟨1, none⟩] = .error .uniqueViolation
    ∧ ((⟨[], [], 0⟩ : SysState).store.map (fun e => e.fieldId)).Nodup :=
  ⟨(C6_unique_per_field envA).2 ⟨[⟨0, 1, some ['x']⟩], [], 1⟩ ⟨1, none⟩ rfl
      ⟨⟨0, 1, some ['x']⟩, by simp, rfl⟩,
   (C6_unique_per_field envA).1 ⟨[], [], 0⟩ Reachable.init⟩

theorem validateVals_err (env : Env) (vlist : List CreateVals)
    (h : ∃ v ∈ vlist,
      env.hasDefaultAttr (env.fieldOf v.fieldId).modelName (env.fieldOf v.fieldId).name = true
      ∨ (env.fieldOf v.fieldId).isFunction = true) :
    ∃ name, validateVals env vlist = some (.fieldHasDefault name)
      ∨ validateVals env vlist = some (.fieldIsFunctional name) := by
  induction vlist with
  | nil =>
      obtain ⟨v, hv, _⟩ := h
      simp at hv
  | cons v0 rest ih =>
      rw [validateVals]
      by_cases hd : env.hasDefaultAttr (env.fieldOf v0.fieldId).modelName
          (env.fieldOf v0.fieldId).name = true
      · refine ⟨(env.fieldOf v0.fieldId).name, Or.inl ?_⟩
        rw [if_pos hd]
      · rw [if_neg hd]
        by_cases hf : (env.fieldOf v0.fieldId).isFunction = true
        · refine ⟨(env.fieldOf v0.fieldId).name, Or.inr ?_⟩
          rw [if_pos hf]
        · rw [if_neg hf]
          obtain ⟨v, hv, hcond⟩ := h
          rcases List.mem_cons.mp hv with h0 | h0
          · subst h0
            rcases hcond with hc | hc
            · exact absurd hc hd
            · exact absurd hc hf
          · exact ih ⟨v, h0, hcond⟩

/-- C3: create fails with FieldHasDefault when the target model exposes a
programmatic default for the field name (the hasattr check), with
FieldIsFunctional when the field is functional (checked second), and in
either failure case the validation loop raises before super().create runs,
so no row is persisted (create returns only the error). -/
theorem C3_create_validation (env : Env) (st : SysState) :
    (∀ v : CreateVals,
      (env.hasDefaultAttr (env.fieldOf v.fieldId).modelName
          (env.fieldOf v.fieldId).name = true →
        create env st [v] = .error (.fieldHasDefault (env.fieldOf v.fieldId).name))
      ∧ (env.hasDefaultAttr (env.fieldOf v.fieldId).modelName
            (env.fieldOf v.fieldId).name = false →
          (env.fieldOf v.fieldId).isFunction = true →
          create env st [v] = .error (.fieldIsFunctional (env.fieldOf v.fieldId).name)))
    ∧ (∀ vlist : List CreateVals,
        (∃ v ∈ vlist,
          env.hasDefaultAttr (env.fieldOf v.fieldId).modelName
            (env.fieldOf v.fieldId).name = true
          ∨ (env.fieldOf v.fieldId).isFunction = true) →
        ∃ name, create env st vlist = .error (.fieldHasDefault name)
          ∨ create env st vlist = .error (.fieldIsFunctional name)) := by
  constructor
  · intro v
    constructor
    · intro hd
      rw [create, validateVals, if_pos hd]
    · intro hd hf
      rw [create, validateVals, if_neg (by rw [hd]; exact Bool.noConfusion), if_pos hf]
  · intro vlist hex
    obtain ⟨name, herr⟩ := validateVals_err env vlist hex
    refine ⟨name, ?_⟩
    rcases herr with herr | herr
    · left
      rw [create, herr]
    · right
      rw [create, herr]

def envC3 : Env :=
  ⟨fun _ => ⟨"f", "m", .char, false⟩, fun _ _ => true, fun _ _ => [],
    fun _ => "m", fun _ => []⟩

theorem C3_create_validation_witness :
    create envC3 ⟨[], [], 0⟩ [⟨1, none⟩] = .error (.fieldHasDefault "f") :=
  ((C3_create_validation envC3 ⟨[], [], 0⟩).1 ⟨1, none⟩).1 rfl

/-- C2 counterexample: a successful create of an entry for the char field
f of model m (with a stored value) leaves the default-provider mapping of
m untouched: create performs validation and insertion only, so no provider
is installed after a create, against the claim. -/
theorem C2_counterexample :
    create envA ⟨[], [], 0⟩ [⟨1, some ['x']⟩] = .ok ⟨[⟨0, 1, some ['x']⟩], [], 1⟩
    ∧ lookupDefault (⟨[⟨0, 1, some ['x']⟩], [], 1⟩ : SysState).defaults ("m", "f")
        = none := by
  constructor
  · rfl
  · rfl

/-- C2 amended: provider installation is performed after a write of
existing entries (for each written entry, when no construction failure is
raised) and once at startup for every persisted entry, and the provider of
a deleted entry is removed from the mapping on delete; create performs
validation and row insertion only and leaves the mapping unchanged, so
installation after a create happens only through the setter-triggered
write that follows when a typed value is supplied. -/
theorem C2_provider_lifecycle (env : Env) (st : SysState) :
    (∀ ids w e, (write env st [(ids, w)]).2 = false →
      e ∈ (write env st [(ids, w)]).1.store → e.id ∈ ids →
      (lookupDefault (write env st [(ids, w)]).1.defaults (entryKey env e)).isSome = true)
    ∧ (∀ e, (load_default_values env st).2 = false → e ∈ st.store →
        (lookupDefault (load_default_values env st).1.defaults (entryKey env e)).isSome
          = true)
    ∧ (∀ ids e, e ∈ st.store → e.id ∈ ids →
        lookupDefault (delete env st ids).defaults (entryKey env e) = none)
    ∧ (∀ vlist st', create env st vlist = .ok st' → st'.defaults = st.defaults) := by
  refine ⟨?_, ?_, ?_, ?_⟩
  · intro ids w e hok he hid
    rw [write] at hok he ⊢
    by_cases hnodup : ((applyActions st.store [(ids, w)]).map (fun e => e.fieldId)).Nodup
    · rw [if_pos hnodup] at hok he ⊢
      rw [runGroups] at hok ⊢
      cases hsdv : set_default_values env
          ((applyActions st.store [(ids, w)]).filter (fun e => decide (e.id ∈ ids)))
          st.defaults with
      | mk ds1 raised =>
          cases raised with
          | true =>
              rw [hsdv] at hok
              exact Bool.noConfusion hok
          | false =>
              have hrec : e ∈ (applyActions st.store [(ids, w)]).filter
                  (fun e => decide (e.id ∈ ids)) := by
                rw [List.mem_filter]
                exact ⟨he, by simpa using hid⟩
              have hinst := set_default_values_installs env
                ((applyActions st.store [(ids, w)]).filter (fun e => decide (e.id ∈ ids)))
                st.defaults (by rw [hsdv]) e hrec
              rw [hsdv] at hinst
              exact hinst
    · rw [if_neg hnodup] at hok
      exact absurd hok (by simp)
  · intro e hok he
    rw [load_default_values] at hok ⊢
    have := set_default_values_installs env st.store st.defaults hok e he
    exact this
  · intro ids e he hid
    rw [delete]
    dsimp only
    apply foldl_remove_mem
    rw [List.mem_filter]
    exact ⟨he, by simpa using hid⟩
  · intro vlist st' hc
    rw [create] at hc
    split at hc
    · exact absurd hc (by simp)
    · split at hc
      · cases hc
        rfl
      · exact absurd hc (by simp)

theorem C2_provider_lifecycle_witness :
    lookupDefault (delete envA ⟨[⟨0, 1, some ['x']⟩],
        [(("m", "f"), Except.ok (some (.str ['x'])))], 1⟩ [0]).defaults ("m", "f")
      = none :=
  (C2_provider_lifecycle envA ⟨[⟨0, 1, some ['x']⟩],
      [(("m", "f"), Except.ok (some (.str ['x'])))], 1⟩).2.2.1 [0]
    ⟨0, 1, some ['x']⟩ (by simp) (by simp)

/-- C5: the startup pass load_default_values is a total function: it
always returns a state (the unchanged store together with the mapping as
far as installation got) and flags only a logged warning, which is raised
exactly when the provider construction of some persisted entry fails; no
failure of the installation step propagates out of it. -/
theorem C5_startup_swallows_failures (env : Env) (st : SysState) :
    ((load_default_values env st).2 = true ↔
      ∃ e ∈ st.store, buildProvider (entryField env e).ttype e.default_value = .error ())
    ∧ (load_default_values env st).1.store = st.store
    ∧ (load_default_values env st).1.defaults
        = (set_default_values env st.store st.defaults).1 := by
  refine ⟨?_, rfl, rfl⟩
  exact set_default_values_raised env st.store st.defaults

/-- The readonly state put on the model and field inputs by the view
(the PYSON Bool(Eval(default_value)) of lines 25 to 36 of the source):
set exactly when the stored default_value is truthy. -/
def modelFieldReadonly (e : Entry) : Bool := pyTruthy e.default_value

def envC9 : Env :=
  ⟨fun i => if i = 1 then ⟨"f1", "m", .char, false⟩ else ⟨"f2", "m", .char, false⟩,
    fun _ _ => false, fun _ _ => [], fun _ => "m", fun _ => []⟩

/-- C9 counterexample: an entry with a stored value, whose model and field
inputs therefore carry the readonly view state, still has its field
reference changed by a write: the server side write path does not enforce
the immutability the claim states. -/
theorem C9_counterexample :
    modelFieldReadonly ⟨0, 1, some ['x']⟩ = true
    ∧ (write envC9 ⟨[⟨0, 1, some ['x']⟩], [], 1⟩ [([0], ⟨some 2, none⟩)]).1.store
        = [⟨0, 2, some ['x']⟩] := by
  constructor
  · rfl
  · rfl

/-- C9 amended: once a value is stored the model and field inputs carry
the readonly view state, but this protection is advisory (evaluated by the
client): the server side write operation still applies a requested field
change to such an entry. -/
theorem C9_readonly_is_advisory (env : Env) (st : SysState) (ids : List Nat)
    (w : WriteVals) (e : Entry) (he : e ∈ st.store) (hid : e.id ∈ ids)
    (hro : modelFieldReadonly e = true)
    (hnodup : ((applyActions st.store [(ids, w)]).map (fun x => x.fieldId)).Nodup) :
    applyWrite w e ∈ (write env st [(ids, w)]).1.store
    ∧ modelFieldReadonly e = pyTruthy e.default_value := by
  constructor
  · rw [write]
    rw [if_pos hnodup]
    show applyWrite w e ∈ applyActions st.store [(ids, w)]
    show applyWrite w e ∈ writeStore st.store ids w
    rw [writeStore]
    refine List.mem_map.mpr ⟨e, he, ?_⟩
    rw [if_pos hid]
  · rfl

theorem C9_readonly_is_advisory_witness :
    applyWrite ⟨some 2, none⟩ ⟨0, 1, some ['x']⟩ ∈
      (write envC9 ⟨[⟨0, 1, some ['x']⟩], [], 1⟩ [([0], ⟨some 2, none⟩)]).1.store
    ∧ modelFieldReadonly ⟨0, 1, some ['x']⟩ = pyTruthy (some ['x']) :=
  C9_readonly_is_advisory envC9 ⟨[⟨0, 1, some ['x']⟩], [], 1⟩ [0] ⟨some 2, none⟩
    ⟨0, 1, some ['x']⟩ (by simp) (by simp) rfl (by decide)

/-- C10: delete removes at most the keys of the deleted entries from the
default-provider mapping: every key not belonging to a deleted entry keeps
its provider; and delete always succeeds, removing exactly the selected
rows from the store whether or not the field name was present in the
mapping. -/
theorem C10_delete_frame (env : Env) (st : SysState) (ids : List Nat)
    (k : String × String)
    (h : ∀ e ∈ st.store, e.id ∈ ids → entryKey env e ≠ k) :
    lookupDefault (delete env st ids).defaults k = lookupDefault st.defaults k
    ∧ (delete env st ids).store = st.store.filter (fun e => decide (e.id ∉ ids)) := by
  constructor
  · rw [delete]
    dsimp only
    apply foldl_remove_frame
    intro e he
    rw [List.mem_filter] at he
    exact h e he.1 (by simpa using he.2)
  · rfl

def envC10 : Env :=
  ⟨fun i => if i = 1 then ⟨"f", "m", .char, false⟩ else ⟨"g", "m", .char, false⟩,
    fun _ _ => false, fun _ _ => [], fun _ => "m", fun _ => []⟩

theorem C10_delete_frame_witness :
    lookupDefault (delete envC10 ⟨[⟨0, 1, some ['x']⟩],
        [(("m", "g"), Except.ok (some (.str ['y'])))], 1⟩ [0]).defaults ("m", "g")
      = lookupDefault [(("m", "g"), Except.ok (some (.str ['y'])))] ("m", "g")
    ∧ (delete envC10 ⟨[⟨0, 1, some ['x']⟩],
        [(("m", "g"), Except.ok (some (.str ['y'])))], 1⟩ [0]).store
      = ([⟨0, 1, some ['x']⟩] : List Entry).filter (fun e => decide (e.id ∉ [0])) :=
  C10_delete_frame envC10 ⟨[⟨0, 1, some ['x']⟩],
      [(("m", "g"), Except.ok (some (.str ['y'])))], 1⟩ [0] ("m", "g")
    (by
      intro e he hid
      rw [List.mem_singleton] at he
      subst he
      decide)

/-- get_selection_values (lines 126 to 140 of the source): start from the
single empty option; for a selection field extend with the declared
selection of the target field, for a many2one field extend with every
record of the related model as the pair of its identifier as text and its
display name.  Callable with no field chosen (the result is just the
empty option), recomputed on every call. -/
def get_selection_values (env : Env) (fieldId : Option Nat) :
    List (Option String × String) :=
  match fieldId with
  | none => [(none, "")]
  | some fid =>
      if (env.fieldOf fid).ttype = .selection then
        (none, "") :: env.declaredSelection (env.fieldOf fid).modelName
          (env.fieldOf fid).name
      else if (env.fieldOf fid).ttype = .many2one then
        (none, "") :: (env.recordsOf (env.relationOf fid)).map
          (fun r => (some (String.mk (natStr r.1)), r.2))
      else [(none, "")]

def envC8 : Env :=
  ⟨fun _ => ⟨"f", "m", .selection, false⟩, fun _ _ => false,
    fun _ _ => [(none, "")], fun _ => "m", fun _ => []⟩

/-- C8 counterexample: for a selection field whose declared selection
itself contains the empty option, the enumeration returns the empty
option twice, so the result is not free of duplicates as the claim
states. -/
theorem C8_counterexample :
    get_selection_values envC8 (some 1) = [(none, ""), (none, "")]
    ∧ ¬ (get_selection_values envC8 (some 1)).Nodup := by
  constructor
  · rfl
  · decide

theorem natStr_inj (a b : Nat) (h : natStr a = natStr b) : a = b := by
  have ha := pyParseNat_natStr a
  rw [h, pyParseNat_natStr b] at ha
  exact (Except.ok.inj ha).symm

/-- C8 amended: the enumeration always begins with the empty unset option
followed by the domain choices verbatim; for a many2one field whose
related records have pairwise distinct identifiers the list has no
duplicates, while for a selection field the declared options are appended
as given, so a duplicate appears exactly when the declared list itself
repeats an option or contains the empty option. -/
theorem C8_enumeration (env : Env) (fid : Nat) :
    ((env.fieldOf fid).ttype = .selection →
      get_selection_values env (some fid)
        = (none, "") :: env.declaredSelection (env.fieldOf fid).modelName
            (env.fieldOf fid).name)
    ∧ ((env.fieldOf fid).ttype = .many2one →
      get_selection_values env (some fid)
        = (none, "") :: (env.recordsOf (env.relationOf fid)).map
            (fun r => (some (String.mk (natStr r.1)), r.2)))
    ∧ ((env.fieldOf fid).ttype = .many2one →
      ((env.recordsOf (env.relationOf fid)).map Prod.fst).Nodup →
      (get_selection_values env (some fid)).Nodup) := by
  have hm2o : ∀ h : (env.fieldOf fid).ttype = .many2one,
      get_selection_values env (some fid)
        = (none, "") :: (env.recordsOf (env.relationOf fid)).map
            (fun r => (some (String.mk (natStr r.1)), r.2)) := by
    intro h
    have hns : ¬ ((env.fieldOf fid).ttype = .selection) := by
      rw [h]
      decide
    rw [get_selection_values]
    rw [if_neg hns, if_pos h]
  refine ⟨?_, hm2o, ?_⟩
  · intro h
    rw [get_selection_values]
    rw [if_pos h]
  · intro h hids
    rw [hm2o h, List.nodup_cons]
    constructor
    · intro hmem
      rw [List.mem_map] at hmem
      obtain ⟨r, _, hr⟩ := hmem
      exact Option.noConfusion (congrArg Prod.fst hr)
    · refine List.Nodup.map ?_ (hids.of_map Prod.fst)
      intro r1 r2 heq
      rw [Prod.mk.injEq, Option.some.injEq] at heq
      obtain ⟨h1, h2⟩ := heq
      have h1' : natStr r1.1 = natStr r2.1 := congrArg String.data h1
      exact Prod.ext (natStr_inj _ _ h1') h2

def envC8b : Env :=
  ⟨fun _ => ⟨"f", "m", .many2one, false⟩, fun _ _ => false, fun _ _ => [],
    fun _ => "rel", fun _ => [(1, "a"), (2, "b")]⟩

theorem C8_enumeration_witness :
    get_selection_values envC8b (some 1)
      = (none, "") :: ([(1, "a"), (2, "b")] : List (Nat × String)).map
          (fun r => (some (String.mk (natStr r.1)), r.2))
    ∧ (get_selection_values envC8b (some 1)).Nodup :=
  ⟨(C8_enumeration envC8b 1).2.1 rfl,
   (C8_enumeration envC8b 1).2.2 rfl (by decide)⟩

end DefaultValueMod
